import Mathlib

/-!
# binge-button backend

A shallow embedding of the Go backend (`backend/handlers`, `backend/services`,
`backend/utils`) and theorems about its range-request responder, its episode
resolver, its next-episode selection and its playback state store.

Go strings are byte sequences, so they are embedded as lists of byte values.
Functions of the Go standard library that the backend calls (`strings.Split`,
`strconv.ParseInt`, `http.Error`, ...) are embedded under their Go names, in a
namespace named after their package.
-/

namespace BingeButton

/-- A Go string: a finite sequence of bytes, each element one byte value. -/
abbrev GoString := List Nat

/-- The bytes of an ASCII string literal. -/
def str (s : String) : GoString := s.toList.map Char.toNat

/-! ## Standard library: `strings` -/

namespace strings

/-- Go `strings.Split(s, sep)` for a separator `sep` of one byte, the only way the
backend calls it: the pieces of `s` between the occurrences of `sep`, in order.
A string without `sep` (the empty string too) gives one piece. -/
def Split : GoString → Nat → List GoString
  | [], _ => [[]]
  | c :: cs, sep =>
    if c = sep then [] :: Split cs sep
    else
      match Split cs sep with
      | [] => [[c]]
      | p :: ps => (c :: p) :: ps

/-- Go `strings.HasPrefix(s, p)`. -/
def HasPrefix (s p : GoString) : Bool := p.isPrefixOf s

/-- Go `strings.HasSuffix(s, p)`. -/
def HasSuffix (s p : GoString) : Bool := p.isSuffixOf s

/-- Go `strings.TrimPrefix(s, p)`: `s` without the leading `p`, or `s` itself. -/
def TrimPrefix (s p : GoString) : GoString :=
  if HasPrefix s p then s.drop p.length else s

/-- Go `strings.TrimSuffix(s, p)`: `s` without the trailing `p`, or `s` itself. -/
def TrimSuffix (s p : GoString) : GoString :=
  if HasSuffix s p then s.take (s.length - p.length) else s

/-- Go `strings.Contains(s, sub)`: `sub` occurs in `s` as a contiguous run. -/
def Contains : GoString → GoString → Bool
  | [], sub => sub.isEmpty
  | c :: cs, sub => sub.isPrefixOf (c :: cs) || Contains cs sub

end strings

/-! ## Standard library: `strconv` and `%d` -/

namespace strconv

/-- The digit loop of Go `strconv.ParseUint` in base 10: every byte must be one of
`'0'..'9'`; the value is accumulated without a bound (the bound is checked by the
callers below). -/
def parseDigits : GoString → Nat → Option Nat
  | [], acc => some acc
  | c :: cs, acc =>
    if 48 ≤ c ∧ c ≤ 57 then parseDigits cs (acc * 10 + (c - 48)) else none

/-- Go `strconv.ParseUint(s, 10, 64)`; `none` stands for a non-nil error (syntax error
on the empty string or a byte that is no digit, range error from `2^64` on). The
backend only tests the error against nil, so the two kinds are not told apart. -/
def ParseUint (s : GoString) : Option Nat :=
  if s = [] then none
  else
    match parseDigits s 0 with
    | none => none
    | some n => if n < 2 ^ 64 then some n else none

/-- Go `strconv.ParseInt(s, 10, 64)`: an optional sign `+` or `-`, then
`ParseUint`, then the check against the range of `int64`. `none` stands for a
non-nil error. -/
def ParseInt (s : GoString) : Option Int :=
  match s with
  | [] => none
  | c :: rest =>
    let neg : Bool := c = 45
    let digits := if c = 43 ∨ c = 45 then rest else s
    match ParseUint digits with
    | none => none
    | some un =>
      if neg then
        if un > 2 ^ 63 then none else some (-(un : Int))
      else
        if un ≥ 2 ^ 63 then none else some (un : Int)

/-- Decimal digits of `n`, most significant first; `fuel` bounds the number of
digits and `fuel = n` is always enough. -/
def formatDigits : Nat → Nat → GoString
  | 0, n => [48 + n % 10]
  | fuel + 1, n =>
    if n < 10 then [48 + n] else formatDigits fuel (n / 10) ++ [48 + n % 10]

/-- Go `strconv.FormatUint(n, 10)`. -/
def FormatUint (n : Nat) : GoString := formatDigits n n

/-- Go `strconv.FormatInt(i, 10)`, which is also what `%d` prints for an `int64`. -/
def FormatInt (i : Int) : GoString :=
  if i < 0 then 45 :: FormatUint i.natAbs else FormatUint i.toNat

end strconv

/-! ## Standard library: `net/http` response writer -/

/-- What a handler has written to its `http.ResponseWriter`: the header map (as an
association list), the status code once `WriteHeader` has run, and the body. -/
structure ResponseWriter where
  header : List (GoString × GoString)
  status : Option Nat
  body : GoString
deriving DecidableEq, Repr

namespace ResponseWriter

/-- A response writer nothing has been written to. -/
def fresh : ResponseWriter := ⟨[], none, []⟩

/-- `w.Header().Set(key, value)`: replaces the values of `key`. -/
def Set (w : ResponseWriter) (key value : GoString) : ResponseWriter :=
  { w with header := (w.header.filter (fun kv => kv.1 ≠ key)) ++ [(key, value)] }

/-- `w.Header().Del(key)`. -/
def Del (w : ResponseWriter) (key : GoString) : ResponseWriter :=
  { w with header := w.header.filter (fun kv => kv.1 ≠ key) }

/-- `w.Header().Get(key)`. -/
def Get (w : ResponseWriter) (key : GoString) : Option GoString :=
  (w.header.find? (fun kv => kv.1 = key)).map Prod.snd

/-- `w.WriteHeader(code)`: the first call fixes the status, later calls are ignored. -/
def WriteHeader (w : ResponseWriter) (code : Nat) : ResponseWriter :=
  match w.status with
  | none => { w with status := some code }
  | some _ => w

/-- `w.Write(p)`: sends status 200 when no status was written yet, then appends. -/
def Write (w : ResponseWriter) (p : GoString) : ResponseWriter :=
  let w1 := w.WriteHeader 200
  { w1 with body := w1.body ++ p }

/-- The status code the client receives (200 when the handler never set one). -/
def statusCode (w : ResponseWriter) : Nat := w.status.getD 200

end ResponseWriter

namespace http

def StatusOK : Nat := 200
def StatusPartialContent : Nat := 206
def StatusBadRequest : Nat := 400
def StatusNotFound : Nat := 404
def StatusRequestedRangeNotSatisfiable : Nat := 416
def StatusInternalServerError : Nat := 500

/-- Go `http.Error(w, msg, code)`: plain-text headers, the status, then the message
and a newline as the body. -/
def Error (w : ResponseWriter) (msg : GoString) (code : Nat) : ResponseWriter :=
  let w1 := w.Del (str "Content-Length")
  let w2 := w1.Set (str "Content-Type") (str "text/plain; charset=utf-8")
  let w3 := w2.Set (str "X-Content-Type-Options") (str "nosniff")
  let w4 := w3.WriteHeader code
  w4.Write (msg ++ [10])

end http

/-! ## `handlers/show_handler.go`: range requests -/

/-- `servePartialContent` of `show_handler.go`. `file` is the content of the opened
file (read offset 0) and `fileSize` the size `file.Stat()` reported. `int64` values
are integers; on the path to the arithmetic (`fileSize - 1`, `endPos - startPos + 1`)
the operands lie between `-1` and `fileSize`, so nothing wraps for a size that is
an `int64`. `file.Seek(startPos, 0)` followed by `io.CopyN(w, file, contentLength)`
writes the bytes from offset `startPos`, at most `contentLength` of them. -/
def servePartialContent (w : ResponseWriter) (file : GoString) (fileSize : Int)
    (rangeHeader : GoString) : ResponseWriter :=
  match strings.Split rangeHeader 61 with
  | [unit, spec] =>
    if unit ≠ str "bytes" then
      http.Error w (str "Invalid range header") http.StatusBadRequest
    else
      match strings.Split spec 45 with
      | [first, last] =>
        match strconv.ParseInt first with
        | none => http.Error w (str "Invalid start position") http.StatusBadRequest
        | some startPos =>
          let parsedEnd : Option Int :=
            if last = [] then some (fileSize - 1) else strconv.ParseInt last
          match parsedEnd with
          | none => http.Error w (str "Invalid end position") http.StatusBadRequest
          | some endPos =>
            if startPos < 0 ∨ endPos ≥ fileSize ∨ startPos > endPos then
              http.Error w (str "Invalid range") http.StatusRequestedRangeNotSatisfiable
            else
              let contentLength := endPos - startPos + 1
              let w1 := w.Set (str "Content-Range")
                (str "bytes " ++ strconv.FormatInt startPos ++ str "-"
                  ++ strconv.FormatInt endPos ++ str "/" ++ strconv.FormatInt fileSize)
              let w2 := w1.Set (str "Accept-Ranges") (str "bytes")
              let w3 := w2.Set (str "Content-Length") (strconv.FormatInt contentLength)
              let w4 := w3.Set (str "Content-Type") (str "video/mp4")
              let w5 := w4.WriteHeader http.StatusPartialContent
              w5.Write ((file.drop startPos.toNat).take contentLength.toNat)
      | _ => http.Error w (str "Invalid range values") http.StatusBadRequest
  | _ => http.Error w (str "Invalid range header") http.StatusBadRequest

/-- `serveFullContent` of `show_handler.go`: three headers, then `io.Copy` of the
whole file; the status is left to the first write. -/
def serveFullContent (w : ResponseWriter) (file : GoString) (fileSize : Int) :
    ResponseWriter :=
  let w1 := w.Set (str "Content-Length") (strconv.FormatInt fileSize)
  let w2 := w1.Set (str "Content-Type") (str "video/mp4")
  let w3 := w2.Set (str "Accept-Ranges") (str "bytes")
  if file = [] then w3 else w3.Write file


/-- The malformed `Range` headers, in the words of the specification: the header
does not split on `=` into exactly two parts of which the first is `bytes`, or its
range part does not split on `-` into exactly two parts, or its start, or its
non-empty end, is not parseable as a base-10 64-bit integer. -/
def MalformedRangeHeader (rangeHeader : GoString) : Prop :=
  let rangeParts := strings.Split rangeHeader 61
  let rangeValues := strings.Split (rangeParts.getD 1 []) 45
  rangeParts.length ≠ 2 ∨ rangeParts.getD 0 [] ≠ str "bytes"
    ∨ rangeValues.length ≠ 2
    ∨ strconv.ParseInt (rangeValues.getD 0 []) = none
    ∨ (rangeValues.getD 1 [] ≠ [] ∧ strconv.ParseInt (rangeValues.getD 1 []) = none)

/-! ## Standard library: `path/filepath` (Unix) -/

namespace filepath

/-- One path component pushed on the stack of components kept so far (top first),
as Go `filepath.Clean` treats it: empty components and `.` are dropped, `..`
removes the component before it, is kept at the front of a relative path and is
dropped at the root. -/
def cleanStep (rooted : Bool) (stack : List GoString) (c : GoString) : List GoString :=
  if c = [] ∨ c = str "." then stack
  else if c = str ".." then
    match stack with
    | top :: rest => if top = str ".." then c :: stack else rest
    | [] => if rooted then [] else [c]
  else c :: stack

/-- Go `filepath.Clean(path)`. -/
def Clean (path : GoString) : GoString :=
  if path = [] then str "."
  else
    let rooted : Bool := path.head? = some 47
    let stack := (strings.Split path 47).foldl (cleanStep rooted) []
    let body := (str "/").intercalate stack.reverse
    let out := if rooted then 47 :: body else body
    if out = [] then str "." else out

/-- Go `filepath.Join(a, b)`: the elements from the first non-empty one on, joined
by `/` and cleaned; the empty string when both are empty. -/
def Join (a b : GoString) : GoString :=
  if a ≠ [] then Clean (a ++ str "/" ++ b)
  else if b ≠ [] then Clean b
  else []

/-- Go `filepath.Dir(path)`: the cleaned path up to and including the last `/`. -/
def Dir (path : GoString) : GoString :=
  Clean (path.reverse.dropWhile (fun c => c ≠ 47)).reverse

/-- Go `filepath.Base(path)`: the last element, trailing slashes removed first. -/
def Base (path : GoString) : GoString :=
  if path = [] then str "."
  else
    let stripped := path.reverse.dropWhile (fun c => c = 47)
    let last := (stripped.takeWhile (fun c => c ≠ 47)).reverse
    if last = [] then str "/" else last

/-- The backwards scan of Go `filepath.Ext`: `rev` is what is left of the reversed
path, `acc` the bytes already passed. -/
def extScan : GoString → GoString → GoString
  | [], _ => []
  | c :: cs, acc =>
    if c = 47 then [] else if c = 46 then c :: acc else extScan cs (c :: acc)

/-- Go `filepath.Ext(path)`: the suffix of the last element from its last dot on. -/
def Ext (path : GoString) : GoString := extScan path.reverse []

end filepath

/-! ## Errors and panics -/

/-- How a Go function can fail: by returning a non-nil `error`, or by a run-time
panic (here: a slice bound out of range). -/
inductive Failure where
  | err (msg : GoString)
  | panic
deriving DecidableEq, Repr

/-- The result of a Go function `func(...) (T, error)` that may also panic. -/
abbrev Result (α : Type) := Except Failure α

/-- Go `s[:hi]`: panics when `hi` exceeds the length. -/
def sliceTo (s : GoString) (hi : Nat) : Result GoString :=
  if hi ≤ s.length then .ok (s.take hi) else .error Failure.panic

/-- Go `s[lo:]`: panics when `lo` exceeds the length. -/
def sliceFrom (s : GoString) (lo : Nat) : Result GoString :=
  if lo ≤ s.length then .ok (s.drop lo) else .error Failure.panic

/-- Go `a < b` on strings: byte-wise lexicographic order. -/
def strLess : GoString → GoString → Bool
  | [], [] => false
  | [], _ :: _ => true
  | _ :: _, [] => false
  | a :: as, b :: bs => decide (a < b) || (decide (a = b) && strLess as bs)

/-! ## `models/models.go` and `config/config.go` -/

/-- `models.EpisodeInfo`. -/
structure EpisodeInfo where
  ID : GoString
  Title : GoString
  VideoURL : GoString
  SubtitleURL : GoString
deriving DecidableEq, Repr

/-- `models.ServerState`; the two numbers are `int64` values. -/
structure ServerState where
  CurrentEpisodeID : GoString
  PlaybackTimeSeconds : Int
  LastUpdated : Int
deriving DecidableEq, Repr

/-- The fields of `config.Config` that the services read. -/
structure Config where
  SeasonsDir : GoString
  StateFile : GoString
  VideoFilePattern : GoString
  SubtitleFilePattern : GoString

/-! ## The environment of the show service -/

/-- One call that `filepath.Walk` makes to its callback: the path, `info.Name()`,
`info.IsDir()`, and the error handed over (when it is set, `info` is not read). -/
structure WalkEntry where
  path : GoString
  name : GoString
  isDir : Bool
  err : Option GoString

/-- An opened file: its content, and the size `file.Stat()` reports (`none` when
`Stat` fails). -/
structure OpenedFile where
  content : GoString
  statSize : Option Int

/-- What the show service observes of its environment during one request: the file
system, and the two library functions that `FindFiles` applies to its patterns,
which are left as parameters. -/
structure World where
  /-- Whether `os.IsNotExist(err)` holds for the error of `os.Stat(path)`. -/
  notExist : GoString → Bool
  /-- The calls `filepath.Walk(root, fn)` makes, in order, as long as `fn` returns nil. -/
  walk : GoString → List WalkEntry
  /-- Go `filepath.Match(pattern, name)`. -/
  pathMatch : GoString → GoString → Except GoString Bool
  /-- Go `strings.TrimSpace`. -/
  trimSpace : GoString → GoString
  /-- The outcome of `utils.ReadJSON(path, &episodes)` for a nil `episodes`. -/
  readEpisodes : GoString → Except GoString (List EpisodeInfo)
  /-- The outcome of `os.Open(path)`. -/
  openFile : GoString → Except GoString OpenedFile

/-! ## `utils/file_utils.go` -/

namespace utils

/-- `utils.FileExists`: true unless `os.Stat` reports that the path does not exist;
`notExist` tells for which paths `os.IsNotExist` holds of the error of `os.Stat`. -/
def FileExists (notExist : GoString → Bool) (path : GoString) : Bool := !notExist path

/-- The loop `for _, p := range patterns` inside the callback of `FindFiles`: whether
`name` matches one of the patterns, or the error of `filepath.Match`. -/
def matchAny (world : World) (name : GoString) : List GoString → Except GoString Bool
  | [] => .ok false
  | p :: ps =>
    match world.pathMatch (world.trimSpace p) name with
    | .error e => .error e
    | .ok true => .ok true
    | .ok false => matchAny world name ps

/-- The walk of `FindFiles` over the remaining callbacks, `files` being the paths
collected so far; an error returned by the callback ends the walk. -/
def findWalk (world : World) (patterns : List GoString) :
    List WalkEntry → List GoString → List GoString × Option GoString
  | [], files => (files, none)
  | e :: es, files =>
    match e.err with
    | some err => (files, some err)
    | none =>
      if !e.isDir then
        match matchAny world e.name patterns with
        | .error err => (files, some err)
        | .ok true => findWalk world patterns es (files ++ [e.path])
        | .ok false => findWalk world patterns es files
      else findWalk world patterns es files

/-- `utils.FindFiles(dir, pattern)`: the files collected and the error of the walk. -/
def FindFiles (world : World) (dir pattern : GoString) : List GoString × Option GoString :=
  findWalk world (strings.Split pattern 44) (world.walk dir) []

end utils

/-! ## `services/show_service.go` -/

/-- Go `sort.Slice(episodes, less)` with `less` comparing the ids: the insertion of
one element into the sorted part, as the insertion sort of `sort.Slice` does it
(the element moves left while it is smaller than its left neighbour). -/
def insertByID (x : EpisodeInfo) : List EpisodeInfo → List EpisodeInfo
  | [] => [x]
  | y :: ys => if strLess x.ID y.ID then x :: y :: ys else y :: insertByID x ys

/-- Go `sort.Slice(episodes, func(i, j) bool { return episodes[i].ID < episodes[j].ID })`,
as insertion sort, which is what `sort.Slice` runs on slices of at most 12 elements.
On longer slices `sort.Slice` runs pdqsort and may leave records with equal ids in
another order: Go promises a sorted permutation and no stability. The general
theorems below use only that the result is sorted and a permutation of the input;
the order of equal ids is used only in evaluations on at most 12 records. -/
def sortByID (episodes : List EpisodeInfo) : List EpisodeInfo :=
  episodes.foldl (fun sorted x => insertByID x sorted) []

/-- The loop of `GetAllEpisodes` over the JSON files: files that cannot be read or
decoded are skipped, the lists of the others are appended. -/
def collectEpisodes (world : World) : List GoString → List EpisodeInfo → List EpisodeInfo
  | [], allEpisodes => allEpisodes
  | jsonFile :: rest, allEpisodes =>
    match world.readEpisodes jsonFile with
    | .error _ => collectEpisodes world rest allEpisodes
    | .ok episodes => collectEpisodes world rest (allEpisodes ++ episodes)

/-- `ShowService.GetAllEpisodes`. -/
def GetAllEpisodes (world : World) (cfg : Config) : Result (List EpisodeInfo) :=
  if !utils.FileExists world.notExist cfg.SeasonsDir then .ok []
  else
    match utils.FindFiles world cfg.SeasonsDir (str "*.json") with
    | (_, some err) => .error (Failure.err (str "failed to find JSON files: " ++ err))
    | (jsonFiles, none) => .ok (sortByID (collectEpisodes world jsonFiles []))

/-- The search `for i, episode := range episodes` of `GetNextEpisodeID`: the index
of the first episode with the given id, counted from `i`. -/
def findCurrentIndex (currentEpisodeID : GoString) : List EpisodeInfo → Nat → Option Nat
  | [], _ => none
  | episode :: rest, i =>
    if episode.ID = currentEpisodeID then some i else findCurrentIndex currentEpisodeID rest (i + 1)

/-- `ShowService.GetNextEpisodeID`. `currentIndex` is `none` for Go's `-1`. -/
def GetNextEpisodeID (world : World) (cfg : Config) (currentEpisodeID : GoString) :
    Result GoString :=
  match GetAllEpisodes world cfg with
  | .error e => .error e
  | .ok episodes =>
    match episodes with
    | [] => .error (Failure.err (str "no episodes found"))
    | [only] => .ok only.ID
    | first :: _ =>
      match findCurrentIndex currentEpisodeID episodes 0 with
      | none => .ok first.ID
      | some currentIndex =>
        if currentIndex = episodes.length - 1 then .ok first.ID
        else
          match episodes[currentIndex + 1]? with
          | some next => .ok next.ID
          | none => .error Failure.panic

/-- The loop `for _, ext := range extensions` of the resolvers: the first path
`dir/name+ext` that exists. -/
def firstExisting (world : World) (dir name : GoString) : List GoString → Option GoString
  | [] => none
  | ext :: rest =>
    let filePath := filepath.Join dir (name ++ ext)
    if utils.FileExists world.notExist filePath then some filePath
    else firstExisting world dir name rest

/-- The loop over the files found by pattern: the first file whose base name without
its extension contains the expected file name or is contained in it. -/
def firstPartialMatch (episodeFileName : GoString) : List GoString → Option GoString
  | [] => none
  | videoFile :: rest =>
    let baseName := strings.TrimSuffix (filepath.Base videoFile) (filepath.Ext videoFile)
    if strings.Contains baseName episodeFileName || strings.Contains episodeFileName baseName
    then some videoFile
    else firstPartialMatch episodeFileName rest

/-- The extensions tried for a video, in order. -/
def videoExtensions : List GoString :=
  [str ".mp4", str ".mkv", str ".avi", str ".mov", str ".wmv"]

/-- The extensions tried for a subtitle, in order. -/
def subtitleExtensions : List GoString := [str ".srt", str ".vtt"]

/-- `ShowService.findEpisodeVideoFile`. -/
def findEpisodeVideoFile (world : World) (cfg : Config) (episodeID : GoString) :
    Result GoString :=
  let trimmedID := strings.TrimPrefix episodeID (str "Show_")
  if trimmedID.length < 6 then .error (Failure.err (str "invalid episode ID format"))
  else
    match sliceTo trimmedID 3 with
    | .error e => .error e
    | .ok seasonPart =>
      if !strings.HasPrefix seasonPart (str "S") then
        .error (Failure.err (str "invalid season format"))
      else
        match sliceFrom trimmedID 3 with
        | .error e => .error e
        | .ok episodePart =>
          if !strings.HasPrefix episodePart (str "E") then
            .error (Failure.err (str "invalid episode format"))
          else
            match sliceFrom seasonPart 1, sliceFrom episodePart 1 with
            | .error e, _ => .error e
            | .ok _, .error e => .error e
            | .ok seasonNum, .ok episodeNum =>
              let seasonDirName := str "season-" ++ seasonNum
              let episodeFileName := str "episode-" ++ episodeNum
              let seasonDir := filepath.Join cfg.SeasonsDir seasonDirName
              if !utils.FileExists world.notExist seasonDir then
                .error (Failure.err (str "season directory not found: " ++ seasonDir))
              else
                match firstExisting world seasonDir episodeFileName videoExtensions with
                | some filePath => .ok filePath
                | none =>
                  match utils.FindFiles world seasonDir cfg.VideoFilePattern with
                  | (_, some err) => .error (Failure.err err)
                  | (videoFiles, none) =>
                    match firstPartialMatch episodeFileName videoFiles with
                    | some videoFile => .ok videoFile
                    | none =>
                      .error (Failure.err
                        (str "video file not found for episode: " ++ episodeID))

/-- `ShowService.GetEpisodeVideoPath`. -/
def GetEpisodeVideoPath (world : World) (cfg : Config) (episodeID : GoString) :
    Result GoString :=
  match findEpisodeVideoFile world cfg episodeID with
  | .error e => .error e
  | .ok path => .ok path

/-- `ShowService.GetEpisodeSubtitlePath`. -/
def GetEpisodeSubtitlePath (world : World) (cfg : Config) (episodeID : GoString) :
    Result GoString :=
  let trimmedID := strings.TrimPrefix episodeID (str "Show_")
  if trimmedID.length < 6 then .error (Failure.err (str "invalid episode ID format"))
  else
    match sliceTo trimmedID 3 with
    | .error e => .error e
    | .ok seasonPart =>
      if !strings.HasPrefix seasonPart (str "S") then
        .error (Failure.err (str "invalid season format"))
      else
        match sliceFrom trimmedID 3 with
        | .error e => .error e
        | .ok episodePart =>
          if !strings.HasPrefix episodePart (str "E") then
            .error (Failure.err (str "invalid episode format"))
          else
            match sliceFrom seasonPart 1, sliceFrom episodePart 1 with
            | .error e, _ => .error e
            | .ok _, .error e => .error e
            | .ok seasonNum, .ok episodeNum =>
              let seasonDirName := str "season-" ++ seasonNum
              let episodeFileName := str "episode-" ++ episodeNum
              let subtitlesDir := filepath.Join (filepath.Dir cfg.SeasonsDir) (str "subtitles")
              let seasonSubtitleDir := filepath.Join subtitlesDir seasonDirName
              if !utils.FileExists world.notExist seasonSubtitleDir then
                .error (Failure.err (str "subtitle directory not found: " ++ seasonSubtitleDir))
              else
                match firstExisting world seasonSubtitleDir episodeFileName
                    subtitleExtensions with
                | some filePath => .ok filePath
                | none =>
                  match utils.FindFiles world seasonSubtitleDir cfg.SubtitleFilePattern with
                  | (_, some err) => .error (Failure.err err)
                  | (subtitleFiles, none) =>
                    match firstPartialMatch episodeFileName subtitleFiles with
                    | some subtitleFile => .ok subtitleFile
                    | none =>
                      .error (Failure.err
                        (str "subtitle file not found for episode: " ++ episodeID))

/-! ## `handlers/show_handler.go`: the video endpoint -/

/-- `ShowHandler.ServeEpisodeVideo`. `urlPath` is `r.URL.Path` and `rangeHeader` is
`r.Header.Get("Range")`. A panic of the resolver is passed on. -/
def ServeEpisodeVideo (world : World) (cfg : Config) (w : ResponseWriter)
    (urlPath rangeHeader : GoString) : Result ResponseWriter :=
  let episodeID :=
    strings.TrimSuffix (strings.TrimPrefix urlPath (str "/api/episode/")) (str "/video")
  match GetEpisodeVideoPath world cfg episodeID with
  | .error Failure.panic => .error Failure.panic
  | .error (Failure.err msg) =>
    .ok (http.Error w (str "Episode not found: " ++ msg) http.StatusNotFound)
  | .ok videoPath =>
    if world.notExist videoPath then
      .ok (http.Error w (str "Video file not found") http.StatusNotFound)
    else
      match world.openFile videoPath with
      | .error _ => .ok (http.Error w (str "Failed to open video file")
          http.StatusInternalServerError)
      | .ok file =>
        match file.statSize with
        | none => .ok (http.Error w (str "Failed to get file info")
            http.StatusInternalServerError)
        | some fileSize =>
          if rangeHeader ≠ [] then
            .ok (servePartialContent w file.content fileSize rangeHeader)
          else .ok (serveFullContent w file.content fileSize)

/-! ## A small library, used to instantiate the theorems -/

/-- A configuration with the seasons under `media/shows`. -/
def sampleConfig : Config :=
  { SeasonsDir := str "media/shows"
    StateFile := str "data/state.json"
    VideoFilePattern := str "*.mp4,*.mkv,*.avi"
    SubtitleFilePattern := str "*.srt,*.vtt" }

/-- The paths that exist in the sample library. -/
def samplePaths : List GoString :=
  [str "media", str "media/shows", str "media/shows/season-01",
    str "media/shows/season-01/episode-02.mkv", str "media/shows/season-01/episode-02.avi",
    str "media/shows/season-02", str "media/shows/season-02/episode-01.mp4",
    str "media/subtitles", str "media/subtitles/season-01",
    str "media/subtitles/season-01/episode-02.vtt"]

/-- A library with two seasons and no sidecar files; a walk visits nothing. -/
def sampleWorld : World :=
  { notExist := fun path => !samplePaths.contains path
    walk := fun _ => []
    pathMatch := fun _ _ => .ok false
    trimSpace := fun p => p
    readEpisodes := fun _ => .error (str "no such file")
    openFile := fun _ => .error (str "no such file") }

/-- A file system that holds nothing at all. `os.Stat` reports that the path does not
exist for every path but one that holds a NUL byte: there `os.Stat` fails with
`EINVAL` (invalid argument), an error of which `os.IsNotExist` is false; `os.Open`
fails in the same two ways. -/
def nulWorld : World :=
  { notExist := fun path => !path.contains 0
    walk := fun _ => []
    pathMatch := fun _ _ => .ok false
    trimSpace := fun p => p
    readEpisodes := fun _ => .error (str "no such file or directory")
    openFile := fun path =>
      .error (if path.contains 0 then str "invalid argument"
        else str "no such file or directory") }

/-- A library is sorted ascending by id: no episode has an id below the id of an
episode before it. -/
def SortedByID (episodes : List EpisodeInfo) : Prop :=
  episodes.Pairwise (fun a b => strLess b.ID a.ID = false)

/-- Two sidecar files that both list episode `Show_S01E02`, under different titles. -/
def duplicateWorld : World :=
  { notExist := fun _ => false
    walk := fun _ =>
      [ ⟨str "media/shows", str "shows", true, none⟩,
        ⟨str "media/shows/extras.json", str "extras.json", false, none⟩,
        ⟨str "media/shows/season-01", str "season-01", true, none⟩,
        ⟨str "media/shows/season-01/episodes.json", str "episodes.json", false, none⟩ ]
    pathMatch := fun pattern name =>
      .ok (decide (pattern = str "*.json") && strings.HasSuffix name (str ".json"))
    trimSpace := fun p => p
    readEpisodes := fun path =>
      if path = str "media/shows/extras.json" then
        .ok [⟨str "Show_S01E02", str "Two (director cut)", [], []⟩]
      else if path = str "media/shows/season-01/episodes.json" then
        .ok [⟨str "Show_S01E01", str "One", [], []⟩, ⟨str "Show_S01E02", str "Two", [], []⟩]
      else .error (str "no such file")
    openFile := fun _ => .error (str "no such file") }

/-! ## Standard library: `unicode/utf8` and `encoding/json` -/

namespace utf8

/-- A continuation byte `10xxxxxx`. -/
def isCont (b : Nat) : Bool := decide (128 ≤ b ∧ b ≤ 191)

/-- The width of the well-formed UTF-8 encoding at the head of `s`, or `0` when `s`
does not start with one (Go `utf8.DecodeRuneInString` then returns `RuneError`
with width 1, or width 0 on the empty string). The accepted ranges of the second
byte are those of Go's `acceptRanges` table. -/
def runeLen : GoString → Nat
  | [] => 0
  | b0 :: rest =>
    if b0 < 128 then 1
    else if 194 ≤ b0 ∧ b0 ≤ 223 then
      match rest with
      | b1 :: _ => if isCont b1 then 2 else 0
      | _ => 0
    else if 224 ≤ b0 ∧ b0 ≤ 239 then
      match rest with
      | b1 :: b2 :: _ =>
        let lo := if b0 = 224 then 160 else 128
        let hi := if b0 = 237 then 159 else 191
        if lo ≤ b1 ∧ b1 ≤ hi ∧ isCont b2 then 3 else 0
      | _ => 0
    else if 240 ≤ b0 ∧ b0 ≤ 244 then
      match rest with
      | b1 :: b2 :: b3 :: _ =>
        let lo := if b0 = 240 then 144 else 128
        let hi := if b0 = 244 then 143 else 191
        if lo ≤ b1 ∧ b1 ≤ hi ∧ isCont b2 ∧ isCont b3 then 4 else 0
      | _ => 0
    else 0

/-- Go `utf8.ValidString(s)`, with `fuel` bounding the number of runes. -/
def validAux : Nat → GoString → Bool
  | _, [] => true
  | 0, _ :: _ => false
  | fuel + 1, b :: rest =>
    if runeLen (b :: rest) = 0 then false
    else validAux fuel ((b :: rest).drop (runeLen (b :: rest)))

/-- Go `utf8.ValidString(s)`. -/
def ValidString (s : GoString) : Bool := validAux s.length s

/-- The coercion to valid UTF-8 with `fuel` bounding the number of steps. -/
def coerceAux : Nat → GoString → GoString
  | _, [] => []
  | 0, b :: rest => b :: rest
  | fuel + 1, b :: rest =>
    if runeLen (b :: rest) = 0 then 239 :: 191 :: 189 :: coerceAux fuel rest
    else (b :: rest).take (runeLen (b :: rest))
      ++ coerceAux fuel ((b :: rest).drop (runeLen (b :: rest)))

/-- What a Go string becomes when `encoding/json` writes it as a JSON string and
reads it back: every byte that does not start a well-formed UTF-8 encoding is
replaced by the encoding `EF BF BD` of U+FFFD (the encoder writes the escape of
U+FFFD for it); everything else, escaped or not in the text, comes back unchanged. -/
def coerce (s : GoString) : GoString := coerceAux s.length s

end utf8

namespace json

/-- A JSON value as the decoder of `encoding/json` sees it when it fills a string or
an `int64` field: `null`, a string (already unquoted), a number written as an
integer literal, or anything else (a boolean, a number with fraction or exponent,
an array, an object). -/
inductive Value where
  | null
  | string (s : GoString)
  | integer (n : Int)
  | other
deriving DecidableEq, Repr

/-- The field of `models.ServerState` that an object key selects (by its `json` tag,
exactly or case-insensitively); `unknown` for a key that selects none. -/
inductive StateKey where
  | currentEpisodeId
  | playbackTimeSeconds
  | lastUpdated
  | unknown
deriving DecidableEq, Repr

/-- The first JSON value of a byte stream, as `json.Decoder.Decode` sees it when
the target is a `ServerState`: no well-formed value at all, `null`, an object with
its members in order, or another value. -/
inductive Document where
  | malformed
  | null
  | object (members : List (StateKey × Value))
  | nonObject
deriving DecidableEq, Repr

/-- The value is an `int64`. -/
def fitsInt64 (n : Int) : Bool := decide (-(2 : Int) ^ 63 ≤ n ∧ n < (2 : Int) ^ 63)

/-- One object member decoded into the struct. A `null` leaves the field as it is;
a value of the wrong kind, or an integer outside `int64`, leaves the field as it
is and is remembered as the error of the call if it is the first one; members
with unknown keys are skipped. -/
def decodeMember (acc : ServerState × Option GoString) (m : StateKey × Value) :
    ServerState × Option GoString :=
  let typeError : Option GoString :=
    match acc.2 with
    | some e => some e
    | none => some (str "json: cannot unmarshal value into Go struct field")
  match m with
  | (StateKey.unknown, _) => acc
  | (_, Value.null) => acc
  | (StateKey.currentEpisodeId, Value.string s) => ({ acc.1 with CurrentEpisodeID := s }, acc.2)
  | (StateKey.currentEpisodeId, _) => (acc.1, typeError)
  | (StateKey.playbackTimeSeconds, Value.integer n) =>
    if fitsInt64 n then ({ acc.1 with PlaybackTimeSeconds := n }, acc.2) else (acc.1, typeError)
  | (StateKey.playbackTimeSeconds, _) => (acc.1, typeError)
  | (StateKey.lastUpdated, Value.integer n) =>
    if fitsInt64 n then ({ acc.1 with LastUpdated := n }, acc.2) else (acc.1, typeError)
  | (StateKey.lastUpdated, _) => (acc.1, typeError)

/-- `json.NewDecoder(file).Decode(&v)` for `v` a `ServerState`: the struct after the
call and the error. The decoder writes into the existing struct, so fields that
the document does not mention keep their values. -/
def Decode (doc : Document) (v : ServerState) : ServerState × Option GoString :=
  match doc with
  | Document.malformed => (v, some (str "invalid character"))
  | Document.null => (v, none)
  | Document.nonObject => (v, some (str "json: cannot unmarshal value into Go value"))
  | Document.object members => members.foldl decodeMember (v, none)

/-- The document that `json.NewEncoder(file).Encode(v)` writes for a `ServerState`:
one object with the three fields in the order of the struct. -/
def Encode (v : ServerState) : Document :=
  Document.object
    [ (StateKey.currentEpisodeId, Value.string (utf8.coerce v.CurrentEpisodeID)),
      (StateKey.playbackTimeSeconds, Value.integer v.PlaybackTimeSeconds),
      (StateKey.lastUpdated, Value.integer v.LastUpdated) ]

end json

/-! ## The disk under the state store -/

/-- What a path holds, as the state store can observe it. -/
inductive FileContent where
  | missing
  | unreadable
  | holds (doc : json.Document)
deriving DecidableEq, Repr

/-- The files on disk, by path. -/
abbrev Disk := GoString → FileContent

/-- For which paths `os.Stat` reports that the file does not exist. -/
def Disk.notExist (disk : Disk) (path : GoString) : Bool := decide (disk path = FileContent.missing)

/-- The disk after `path` received new content. -/
def Disk.store (disk : Disk) (path : GoString) (content : FileContent) : Disk :=
  fun p => if p = path then content else disk p

/-- What goes wrong while `utils.WriteJSON` runs: nothing, `EnsureDir` fails,
`os.Create` fails, or the write of the encoder fails and leaves `left` in the
file that `os.Create` has truncated. -/
inductive WriteFault where
  | none
  | ensureDir (msg : GoString)
  | create (msg : GoString)
  | write (msg : GoString) (left : json.Document)
deriving DecidableEq, Repr

namespace utils

/-- `utils.ReadJSON(path, &v)` for `v` a `ServerState`: the struct after the call and
the error of `os.Open` or of the decoder. -/
def ReadJSON (disk : Disk) (path : GoString) (v : ServerState) :
    ServerState × Option GoString :=
  match disk path with
  | FileContent.missing => (v, some (str "open: no such file or directory"))
  | FileContent.unreadable => (v, some (str "open: permission denied"))
  | FileContent.holds doc => json.Decode doc v

/-- `utils.WriteJSON(path, v)` for `v` a `ServerState`: the disk after the call and
the error. -/
def WriteJSON (fault : WriteFault) (disk : Disk) (path : GoString) (v : ServerState) :
    Disk × Option GoString :=
  match fault with
  | WriteFault.ensureDir msg => (disk, some msg)
  | WriteFault.create msg => (disk, some msg)
  | WriteFault.write msg left => (disk.store path (FileContent.holds left), some msg)
  | WriteFault.none => (disk.store path (FileContent.holds (json.Encode v)), none)

end utils

/-! ## `services/state_service.go` -/

/-- Go `sync.RWMutex`, seen from the one goroutine that runs a call: how many read
locks are held and whether the write lock is held. -/
structure RWMutex where
  readers : Nat
  writer : Bool
deriving DecidableEq, Repr

namespace RWMutex

/-- A mutex that no one holds. -/
def free : RWMutex := ⟨0, false⟩

/-- `mutex.Lock()`: acquired only while no reader and no writer holds the mutex;
`none` when the caller has to wait. -/
def Lock (m : RWMutex) : Option RWMutex :=
  if m.readers = 0 ∧ m.writer = false then some { m with writer := true } else none

/-- `mutex.Unlock()`. -/
def Unlock (m : RWMutex) : RWMutex := { m with writer := false }

/-- `mutex.RLock()`: acquired only while no writer holds the mutex. -/
def RLock (m : RWMutex) : Option RWMutex :=
  if m.writer = false then some { m with readers := m.readers + 1 } else none

/-- `mutex.RUnlock()`. -/
def RUnlock (m : RWMutex) : RWMutex := { m with readers := m.readers - 1 }

end RWMutex

/-- The outcome of a call that takes locks: it returns a value, or it waits for a
lock that nothing in the call will ever release. -/
inductive Call (α : Type) where
  | returns (value : α)
  | blocksForever
deriving Repr

/-- `services.StateService`. -/
structure StateService where
  stateFile : GoString
  state : ServerState
  mutex : RWMutex
deriving DecidableEq, Repr

/-- `models.ServerState{}`. -/
def ServerState.zero : ServerState := ⟨[], 0, 0⟩

/-- `StateService.loadState`. -/
def loadState (disk : Disk) (s : StateService) : Call StateService :=
  match s.mutex.Lock with
  | none => Call.blocksForever
  | some held =>
    let loaded : ServerState :=
      if utils.FileExists disk.notExist s.stateFile then
        match utils.ReadJSON disk s.stateFile s.state with
        | (_, some _) => ServerState.zero
        | (decoded, none) => decoded
      else ServerState.zero
    Call.returns { s with state := loaded, mutex := held.Unlock }

/-- `services.NewStateService`. -/
def NewStateService (disk : Disk) (stateFile : GoString) : Call StateService :=
  loadState disk { stateFile := stateFile, state := ServerState.zero, mutex := RWMutex.free }

/-- `StateService.GetState`: the service after the call and the state returned. -/
def GetState (disk : Disk) (s : StateService) : Call (StateService × ServerState) :=
  match s.mutex.RLock with
  | none => Call.blocksForever
  | some held =>
    match loadState disk { s with mutex := held } with
    | Call.blocksForever => Call.blocksForever
    | Call.returns loaded =>
      Call.returns ({ loaded with mutex := loaded.mutex.RUnlock }, loaded.state)

/-- `StateService.UpdateState`, with `now` the value of `time.Now().Unix()`: the
service and the disk after the call, and the error returned. -/
def UpdateState (fault : WriteFault) (now : Int) (disk : Disk) (s : StateService)
    (episodeID : GoString) (playbackTimeSeconds : Int) :
    Call (StateService × Disk × Option GoString) :=
  match s.mutex.Lock with
  | none => Call.blocksForever
  | some held =>
    let state : ServerState :=
      { CurrentEpisodeID := episodeID
        PlaybackTimeSeconds := playbackTimeSeconds
        LastUpdated := now }
    let written := utils.WriteJSON fault disk s.stateFile state
    Call.returns ({ s with state := state, mutex := held.Unlock }, written.1, written.2)

/-- A disk without any file. -/
def emptyDisk : Disk := fun _ => FileContent.missing
/-! ## Lemmas: splitting -/

/-! ## `handlers/state_handler.go`: the state endpoint -/

/-- `models.PlaybackStateUpdateRequest`. -/
structure PlaybackStateUpdateRequest where
  EpisodeID : GoString
  PlaybackTimeSeconds : Int
deriving DecidableEq, Repr

/-- The body that `json.NewEncoder(w).Encode(map[string]bool{"success": true})` writes:
the object with the one member `success`, then a newline. -/
def successBody : GoString := [123, 34] ++ str "success" ++ [34] ++ str ":true" ++ [125, 10]

/-- `StateHandler.UpdatePlaybackState`. `decoded` is the outcome of
`json.NewDecoder(r.Body).Decode(&request)`: its error, or the request decoded. The
result is the service and the disk after the call and the response written. -/
def UpdatePlaybackState (fault : WriteFault) (now : Int) (disk : Disk) (s : StateService)
    (w : ResponseWriter) (decoded : Except GoString PlaybackStateUpdateRequest) :
    Call (StateService × Disk × ResponseWriter) :=
  match decoded with
  | .error _ => Call.returns (s, disk, http.Error w (str "Invalid JSON") http.StatusBadRequest)
  | .ok request =>
    if request.EpisodeID = [] then
      Call.returns (s, disk, http.Error w (str "Episode ID is required") http.StatusBadRequest)
    else
      match UpdateState fault now disk s request.EpisodeID request.PlaybackTimeSeconds with
      | Call.blocksForever => Call.blocksForever
      | Call.returns (s2, disk2, some _) =>
        Call.returns (s2, disk2,
          http.Error w (str "Failed to update state") http.StatusInternalServerError)
      | Call.returns (s2, disk2, none) =>
        Call.returns (s2, disk2,
          (w.Set (str "Content-Type") (str "application/json")).Write successBody)

/-! ## The sidecar files, in the words of the specification -/

/-- Whether the name of a walked file matches `*.json`, according to
`filepath.Match`. -/
def isJSONName (world : World) (name : GoString) : Bool :=
  match world.pathMatch (world.trimSpace (str "*.json")) name with
  | .ok true => true
  | _ => false

/-- The sidecar JSON files under `root`: the files (not directories) that the walk
visits and whose name matches `*.json`, in the order of the walk. -/
def sidecarFiles (world : World) (root : GoString) : List GoString :=
  ((world.walk root).filter (fun e => !e.isDir && isJSONName world e.name)).map
    (fun e => e.path)

/-- The concatenation of the episode lists of exactly the decodable files among
`files`, in order. -/
def decodableEpisodes (world : World) (files : List GoString) : List EpisodeInfo :=
  files.flatMap (fun f =>
    match world.readEpisodes f with
    | .ok episodes => episodes
    | .error _ => [])

/-- The walk of a seasons root that holds the two sidecar files `a.json` and `b.json`. -/
def twoFileWalk : List WalkEntry :=
  [ ⟨str "media/shows", str "shows", true, none⟩,
    ⟨str "media/shows/a.json", str "a.json", false, none⟩,
    ⟨str "media/shows/b.json", str "b.json", false, none⟩ ]

/-- A library whose two sidecar files hold one record each, both with the id
`Show_S01E01`; `first` is the title in `a.json` and `second` the title in `b.json`. -/
def twoFileWorld (first second : GoString) : World :=
  { notExist := fun _ => false
    walk := fun _ => twoFileWalk
    pathMatch := fun pattern name =>
      .ok (decide (pattern = str "*.json") && strings.HasSuffix name (str ".json"))
    trimSpace := fun p => p
    readEpisodes := fun path =>
      if path = str "media/shows/a.json" then .ok [⟨str "Show_S01E01", first, [], []⟩]
      else if path = str "media/shows/b.json" then .ok [⟨str "Show_S01E01", second, [], []⟩]
      else .error (str "no such file")
    openFile := fun _ => .error (str "no such file") }

/-- The two-file library visited in the other order: `b.json` before `a.json`. -/
def twoFileWorldReversed (first second : GoString) : World :=
  { twoFileWorld first second with
    walk := fun _ =>
      [ ⟨str "media/shows", str "shows", true, none⟩,
        ⟨str "media/shows/b.json", str "b.json", false, none⟩,
        ⟨str "media/shows/a.json", str "a.json", false, none⟩ ] }

/-! ## The anatomy of a cleaned path -/

/-- Whether `filepath.Clean` treats the path as rooted: it starts with `/`. -/
def cleanRooted (path : GoString) : Bool := path.head? = some 47

/-- The components that `filepath.Clean` keeps of a path, the last one first. -/
def cleanStack (path : GoString) : List GoString :=
  (strings.Split path 47).foldl (filepath.cleanStep (cleanRooted path)) []

/-- The path that `filepath.Clean` writes for the components it kept. -/
def renderPath (rooted : Bool) (stack : List GoString) : GoString :=
  let body := (str "/").intercalate stack.reverse
  let out := if rooted then 47 :: body else body
  if out = [] then str "." else out

/-- A plain file or directory name: not empty, without `/`, and neither `.` nor `..`. -/
def PlainName (name : GoString) : Prop :=
  name ≠ [] ∧ 47 ∉ name ∧ name ≠ str "." ∧ name ≠ str ".."

/-- The shape of the components of a cleaned path (last one first): none is empty,
is `.` or holds a `/`, and `..` occurs only in a relative path with nothing but
`..` before it. -/
def GoodStack (rooted : Bool) : List GoString → Prop
  | [] => True
  | c :: s =>
    c ≠ [] ∧ c ≠ str "." ∧ 47 ∉ c
      ∧ (c = str ".." → rooted = false ∧ ∀ x ∈ s, x = str "..")
      ∧ GoodStack rooted s

theorem Split_ne_nil (s : GoString) (sep : Nat) : strings.Split s sep ≠ [] := by
  induction s with
  | nil => simp [strings.Split]
  | cons c cs ih =>
    unfold strings.Split
    split
    · simp
    · split
      · simp
      · simp

theorem Split_of_not_mem (s : GoString) (sep : Nat) (h : sep ∉ s) :
    strings.Split s sep = [s] := by
  induction s with
  | nil => rfl
  | cons c cs ih =>
    have hc : c ≠ sep := fun e => h (by simp [e])
    have hcs : sep ∉ cs := fun e => h (by simp [e])
    simp [strings.Split, hc, ih hcs]

theorem Split_append_sep (a b : GoString) (sep : Nat) (h : sep ∉ a) :
    strings.Split (a ++ sep :: b) sep = a :: strings.Split b sep := by
  induction a with
  | nil => simp [strings.Split]
  | cons c cs ih =>
    have hc : c ≠ sep := fun e => h (by simp [e])
    have hcs : sep ∉ cs := fun e => h (by simp [e])
    simp [strings.Split, hc, ih hcs]

/-! ## Lemmas: decimal rendering and parsing -/

theorem formatDigits_digit (fuel n : Nat) :
    ∀ c ∈ strconv.formatDigits fuel n, 48 ≤ c ∧ c ≤ 57 := by
  induction fuel generalizing n with
  | zero =>
    intro c hc
    simp [strconv.formatDigits] at hc
    omega
  | succ k ih =>
    intro c hc
    unfold strconv.formatDigits at hc
    split at hc
    · simp at hc; omega
    · rcases List.mem_append.1 hc with h | h
      · exact ih _ c h
      · simp at h; omega

theorem formatDigits_ne_nil (fuel n : Nat) : strconv.formatDigits fuel n ≠ [] := by
  cases fuel with
  | zero => simp [strconv.formatDigits]
  | succ k =>
    unfold strconv.formatDigits
    split <;> simp

theorem parseDigits_append_digit (xs : GoString) (d acc : Nat) (hd : d < 10) :
    strconv.parseDigits (xs ++ [48 + d]) acc
      = (strconv.parseDigits xs acc).map (fun v => v * 10 + d) := by
  induction xs generalizing acc with
  | nil =>
    have h1 : 48 ≤ 48 + d ∧ 48 + d ≤ 57 := by omega
    simp [strconv.parseDigits, h1]
  | cons c cs ih =>
    simp only [List.cons_append, strconv.parseDigits]
    split
    · exact ih _
    · rfl

theorem parseDigits_formatDigits (fuel n : Nat) (h : n ≤ fuel) :
    strconv.parseDigits (strconv.formatDigits fuel n) 0 = some n := by
  induction fuel generalizing n with
  | zero =>
    have h0 : n = 0 := by omega
    subst h0
    simp [strconv.formatDigits, strconv.parseDigits]
  | succ k ih =>
    unfold strconv.formatDigits
    split
    · rename_i h10
      have h1 : 48 ≤ 48 + n ∧ 48 + n ≤ 57 := by omega
      simp [strconv.parseDigits, h1]
    · rename_i h10
      rw [parseDigits_append_digit _ _ _ (Nat.mod_lt n (by norm_num)), ih (n / 10) (by omega)]
      simp
      omega

theorem FormatUint_digit (n : Nat) : ∀ c ∈ strconv.FormatUint n, 48 ≤ c ∧ c ≤ 57 :=
  formatDigits_digit n n

theorem FormatUint_ne_nil (n : Nat) : strconv.FormatUint n ≠ [] := formatDigits_ne_nil n n

theorem FormatUint_not_mem (n c : Nat) (hc : c < 48 ∨ 57 < c) : c ∉ strconv.FormatUint n := by
  intro h
  have := FormatUint_digit n c h
  omega

theorem ParseUint_FormatUint (n : Nat) (h : n < 2 ^ 64) :
    strconv.ParseUint (strconv.FormatUint n) = some n := by
  unfold strconv.ParseUint
  rw [if_neg (FormatUint_ne_nil n)]
  unfold strconv.FormatUint
  rw [parseDigits_formatDigits n n (le_refl n)]
  have h2 : n < 18446744073709551616 := by norm_num at h; exact h
  simp [h2]

theorem ParseInt_FormatUint (n : Nat) (h : n < 2 ^ 63) :
    strconv.ParseInt (strconv.FormatUint n) = some (n : Int) := by
  have hne := FormatUint_ne_nil n
  have hdig := FormatUint_digit n
  have hparse := ParseUint_FormatUint n (by omega)
  cases hs : strconv.FormatUint n with
  | nil => exact absurd hs hne
  | cons c rest =>
    have hc := hdig c (by simp [hs])
    rw [hs] at hparse
    have h43 : ¬ (c = 43 ∨ c = 45) := by omega
    have h45 : c ≠ 45 := by omega
    have h43b : c ≠ 43 := by omega
    have hlt : n < 9223372036854775808 := by norm_num at h; exact h
    simp [strconv.ParseInt, h43b, h45, hparse, hlt]

theorem FormatInt_natCast (n : Nat) : strconv.FormatInt (n : Int) = strconv.FormatUint n := by
  simp [strconv.FormatInt]


/-! ## Lemmas: the response writer -/

theorem Get_Set_same (w : ResponseWriter) (k v : GoString) :
    (w.Set k v).Get k = some v := by
  simp only [ResponseWriter.Get, ResponseWriter.Set]
  rw [List.find?_append]
  have h : List.find? (fun kv => decide (kv.1 = k))
      (List.filter (fun kv => decide (kv.1 ≠ k)) w.header) = none := by
    rw [List.find?_eq_none]
    intro x hx
    have := (List.mem_filter.1 hx).2
    simpa using this
  rw [h]
  simp

theorem Get_Set_other (w : ResponseWriter) (k k2 v : GoString) (hk : k2 ≠ k) :
    (w.Set k v).Get k2 = w.Get k2 := by
  simp only [ResponseWriter.Get, ResponseWriter.Set]
  rw [List.find?_append]
  have h1 : List.find? (fun kv => decide (kv.1 = k2))
      (List.filter (fun kv => decide (kv.1 ≠ k)) w.header)
      = List.find? (fun kv => decide (kv.1 = k2)) w.header := by
    induction w.header with
    | nil => rfl
    | cons x xs ih =>
      by_cases hx : x.1 = k
      · have hx2 : ¬ x.1 = k2 := fun e => hk (e ▸ hx)
        rw [List.filter_cons_of_neg (by simpa using hx), List.find?_cons_of_neg _ (by simpa using hx2)]
        exact ih
      · rw [List.filter_cons_of_pos (by simpa using hx)]
        by_cases hx2 : x.1 = k2
        · rw [List.find?_cons_of_pos _ (by simpa using hx2),
            List.find?_cons_of_pos _ (by simpa using hx2)]
        · rw [List.find?_cons_of_neg _ (by simpa using hx2),
            List.find?_cons_of_neg _ (by simpa using hx2)]
          exact ih
  rw [h1]
  have h2 : List.find? (fun kv => decide (kv.1 = k2)) [(k, v)] = none := by
    simp [List.find?, Ne.symm hk]
  rw [h2]
  simp

theorem Get_WriteHeader (w : ResponseWriter) (c : Nat) (k : GoString) :
    (w.WriteHeader c).Get k = w.Get k := by
  unfold ResponseWriter.WriteHeader
  split <;> rfl

theorem Get_Write (w : ResponseWriter) (p k : GoString) : (w.Write p).Get k = w.Get k := by
  simp only [ResponseWriter.Write]
  exact Get_WriteHeader w 200 k

theorem Error_status (w : ResponseWriter) (msg : GoString) (code : Nat)
    (hw : w.status = none) : (http.Error w msg code).statusCode = code := by
  simp [http.Error, ResponseWriter.Write, ResponseWriter.WriteHeader, ResponseWriter.Set,
    ResponseWriter.Del, ResponseWriter.statusCode, hw]

theorem Error_body (w : ResponseWriter) (msg : GoString) (code : Nat) :
    (http.Error w msg code).body = w.body ++ (msg ++ [10]) := by
  simp only [http.Error, ResponseWriter.Write, ResponseWriter.WriteHeader,
    ResponseWriter.Set, ResponseWriter.Del]
  split <;> split <;> simp_all

/-! ## Lemmas: the shape of a range header -/

theorem Split_rangeHeader (first last : GoString) (h1 : 61 ∉ first) (h2 : 61 ∉ last) :
    strings.Split (str "bytes=" ++ first ++ str "-" ++ last) 61
      = [str "bytes", first ++ str "-" ++ last] := by
  have e1 : str "bytes=" ++ first ++ str "-" ++ last
      = str "bytes" ++ 61 :: (first ++ str "-" ++ last) := by
    simp [str]
  have hb : 61 ∉ str "bytes" := by decide
  have hr : 61 ∉ first ++ str "-" ++ last := by
    simp [str, h1, h2]
  rw [e1, Split_append_sep _ _ _ hb, Split_of_not_mem _ _ hr]

theorem Split_rangeSpec (first last : GoString) (h1 : 45 ∉ first) (h2 : 45 ∉ last) :
    strings.Split (first ++ str "-" ++ last) 45 = [first, last] := by
  have e1 : first ++ str "-" ++ last = first ++ 45 :: last := by simp [str]
  rw [e1, Split_append_sep _ _ _ h1, Split_of_not_mem _ _ h2]

/-- C1: a valid range `bytes=a-b` with `0 ≤ a ≤ b < n` on a file of `n` bytes is
answered with status 206, `Content-Range: bytes a-b/n`, `Content-Length: b-a+1`
and, as the body, exactly the bytes of the file at offsets `a` through `b`. -/
theorem servePartialContent_valid_range (w : ResponseWriter) (file : GoString) (a b : Nat)
    (hstatus : w.status = none) (hbody : w.body = [])
    (hsize : file.length < 2 ^ 63) (hab : a ≤ b) (hb : b < file.length) :
    let r := servePartialContent w file (file.length : Int)
      (str "bytes=" ++ strconv.FormatInt a ++ str "-" ++ strconv.FormatInt b)
    r.statusCode = 206
    ∧ r.Get (str "Content-Range")
        = some (str "bytes " ++ strconv.FormatInt a ++ str "-" ++ strconv.FormatInt b
            ++ str "/" ++ strconv.FormatInt file.length)
    ∧ r.Get (str "Content-Length") = some (strconv.FormatInt ((b : Int) - a + 1))
    ∧ r.body = (file.drop a).take (b - a + 1)
    ∧ r.body.length = b - a + 1
    ∧ ∀ i, i < b - a + 1 → r.body[i]? = file[a + i]? := by
  have ha63 : a < 2 ^ 63 := by omega
  have hb63 : b < 2 ^ 63 := by omega
  have hsplit := Split_rangeHeader (strconv.FormatUint a) (strconv.FormatUint b)
    (FormatUint_not_mem a 61 (by omega)) (FormatUint_not_mem b 61 (by omega))
  have hspec := Split_rangeSpec (strconv.FormatUint a) (strconv.FormatUint b)
    (FormatUint_not_mem a 45 (by omega)) (FormatUint_not_mem b 45 (by omega))
  have hne : strconv.FormatUint b ≠ [] := FormatUint_ne_nil b
  have hrange : ¬ ((a : Int) < 0 ∨ (b : Int) ≥ (file.length : Int) ∨ (a : Int) > (b : Int)) := by
    omega
  have hbytes : ¬ (str "bytes" ≠ str "bytes") := by simp
  have hlen : ((b : Int) - a + 1).toNat = b - a + 1 := by omega
  have hserve : servePartialContent w file (file.length : Int)
      (str "bytes=" ++ strconv.FormatInt a ++ str "-" ++ strconv.FormatInt b)
      = (((((w.Set (str "Content-Range")
            (str "bytes " ++ strconv.FormatInt a ++ str "-" ++ strconv.FormatInt b
              ++ str "/" ++ strconv.FormatInt file.length)).Set
          (str "Accept-Ranges") (str "bytes")).Set
          (str "Content-Length") (strconv.FormatInt ((b : Int) - a + 1))).Set
          (str "Content-Type") (str "video/mp4")).WriteHeader 206).Write
          ((file.drop a).take (b - a + 1)) := by
    unfold servePartialContent
    rw [FormatInt_natCast, FormatInt_natCast, hsplit]
    simp only [hbytes, if_false, hspec, ParseInt_FormatUint a ha63, hne,
      ParseInt_FormatUint b hb63, hrange, hlen, Int.toNat_ofNat, http.StatusPartialContent,
      FormatInt_natCast]
  have hdrop : ((file.drop a).take (b - a + 1)).length = b - a + 1 := by
    simp
    omega
  intro r
  have hr : r = _ := hserve
  refine ⟨?_, ?_, ?_, ?_, ?_, ?_⟩
  · rw [hr]
    simp [ResponseWriter.Write, ResponseWriter.WriteHeader, ResponseWriter.Set,
      ResponseWriter.statusCode, hstatus]
  · rw [hr, Get_Write, Get_WriteHeader, Get_Set_other _ _ _ _ (by decide),
      Get_Set_other _ _ _ _ (by decide), Get_Set_other _ _ _ _ (by decide), Get_Set_same]
  · rw [hr, Get_Write, Get_WriteHeader, Get_Set_other _ _ _ _ (by decide), Get_Set_same]
  · rw [hr]
    simp [ResponseWriter.Write, ResponseWriter.WriteHeader, ResponseWriter.Set, hstatus, hbody]
  · rw [hr]
    simp [ResponseWriter.Write, ResponseWriter.WriteHeader, ResponseWriter.Set, hstatus, hbody]
    omega
  · intro i hi
    rw [hr]
    simp [ResponseWriter.Write, ResponseWriter.WriteHeader, ResponseWriter.Set, hstatus, hbody,
      List.getElem?_take, hi]

/-- Witness for `servePartialContent_valid_range`: bytes 1 through 3 of a five-byte file. -/
theorem servePartialContent_valid_range_witness :
    (servePartialContent ResponseWriter.fresh [10, 20, 30, 40, 50] 5 (str "bytes=1-3")).statusCode
      = 206
    ∧ (servePartialContent ResponseWriter.fresh [10, 20, 30, 40, 50] 5 (str "bytes=1-3")).body
      = [20, 30, 40] := by
  have h := servePartialContent_valid_range ResponseWriter.fresh [10, 20, 30, 40, 50] 1 3 rfl rfl
    (by norm_num) (by decide) (by decide)
  exact ⟨h.1, h.2.2.2.1⟩

/-! ## Lemmas: the decision tree of `servePartialContent` -/

theorem serve_bad_parts (w : ResponseWriter) (file : GoString) (n : Int) (h : GoString)
    (hlen : (strings.Split h 61).length ≠ 2) :
    servePartialContent w file n h
      = http.Error w (str "Invalid range header") http.StatusBadRequest := by
  unfold servePartialContent
  split
  · rename_i unit spec heq
    rw [heq] at hlen
    simp at hlen
  · rfl

theorem serve_bad_unit (w : ResponseWriter) (file : GoString) (n : Int) (h unit spec : GoString)
    (hsplit : strings.Split h 61 = [unit, spec]) (hunit : unit ≠ str "bytes") :
    servePartialContent w file n h
      = http.Error w (str "Invalid range header") http.StatusBadRequest := by
  unfold servePartialContent
  rw [hsplit]
  simp only [hunit, ne_eq, not_false_eq_true, if_true]

theorem serve_bad_values (w : ResponseWriter) (file : GoString) (n : Int) (h spec : GoString)
    (hsplit : strings.Split h 61 = [str "bytes", spec])
    (hlen : (strings.Split spec 45).length ≠ 2) :
    servePartialContent w file n h
      = http.Error w (str "Invalid range values") http.StatusBadRequest := by
  unfold servePartialContent
  rw [hsplit]
  simp only [ne_eq, not_true_eq_false, if_false]
  split
  · rename_i first last heq
    rw [heq] at hlen
    simp at hlen
  · rfl

theorem serve_bad_start (w : ResponseWriter) (file : GoString) (n : Int)
    (h spec first last : GoString)
    (hsplit : strings.Split h 61 = [str "bytes", spec])
    (hspec : strings.Split spec 45 = [first, last])
    (hstart : strconv.ParseInt first = none) :
    servePartialContent w file n h
      = http.Error w (str "Invalid start position") http.StatusBadRequest := by
  unfold servePartialContent
  rw [hsplit]
  simp only [ne_eq, not_true_eq_false, if_false, hspec, hstart]

theorem serve_bad_end (w : ResponseWriter) (file : GoString) (n : Int)
    (h spec first last : GoString) (startPos : Int)
    (hsplit : strings.Split h 61 = [str "bytes", spec])
    (hspec : strings.Split spec 45 = [first, last])
    (hstart : strconv.ParseInt first = some startPos)
    (hne : last ≠ []) (hend : strconv.ParseInt last = none) :
    servePartialContent w file n h
      = http.Error w (str "Invalid end position") http.StatusBadRequest := by
  unfold servePartialContent
  rw [hsplit]
  simp only [ne_eq, not_true_eq_false, if_false, hspec, hstart, hne, hend]

theorem serve_unsatisfiable (w : ResponseWriter) (file : GoString) (n : Int)
    (h spec first last : GoString) (startPos endPos : Int)
    (hsplit : strings.Split h 61 = [str "bytes", spec])
    (hspec : strings.Split spec 45 = [first, last])
    (hstart : strconv.ParseInt first = some startPos)
    (hend : (if last = [] then some (n - 1) else strconv.ParseInt last) = some endPos)
    (hrange : startPos < 0 ∨ endPos ≥ n ∨ startPos > endPos) :
    servePartialContent w file n h
      = http.Error w (str "Invalid range") http.StatusRequestedRangeNotSatisfiable := by
  unfold servePartialContent
  rw [hsplit]
  simp only [ne_eq, not_true_eq_false, if_false, hspec, hstart, hend, hrange, if_true]

/-- C2, refuted as stated: on a ten-byte file the header `bytes=-1-5` (start `-1`,
which is below 0) is answered 400, not 416, because the dash-split yields three
parts; and `bytes=0-9223372036854775808`, whose end is beyond the file, is answered
400 because the end does not fit an `int64`. -/
theorem servePartialContent_negative_start_is_400 :
    str "bytes=" ++ strconv.FormatInt (-1) ++ str "-" ++ strconv.FormatInt 5 = str "bytes=-1-5"
    ∧ (servePartialContent ResponseWriter.fresh (List.replicate 10 0) 10
        (str "bytes=-1-5")).statusCode = 400
    ∧ (servePartialContent ResponseWriter.fresh (List.replicate 10 0) 10
        (str "bytes=0-9223372036854775808")).statusCode = 400 := by
  refine ⟨by decide, by decide, by decide⟩

/-- C2, amended: for every file size `n` and header `bytes=<a>-<b>` with `a` and `b`
the decimal renderings of integers `0 ≤ a, b < 2^63`, if `a > b` or `b ≥ n` the
response is exactly `http.Error(w, "Invalid range", 416)`: status 416 and a body
that holds the error text and no byte of the file. A start written with a minus
sign never reaches that check: the dash-split yields three parts, answered 400. -/
theorem servePartialContent_unsatisfiable_range (w : ResponseWriter) (file : GoString)
    (n : Int) (a b : Nat) (hstatus : w.status = none) (hbody : w.body = [])
    (ha : a < 2 ^ 63) (hb : b < 2 ^ 63) (hrange : a > b ∨ (b : Int) ≥ n) :
    servePartialContent w file n
        (str "bytes=" ++ strconv.FormatInt a ++ str "-" ++ strconv.FormatInt b)
      = http.Error w (str "Invalid range") http.StatusRequestedRangeNotSatisfiable
    ∧ (servePartialContent w file n
        (str "bytes=" ++ strconv.FormatInt a ++ str "-" ++ strconv.FormatInt b)).statusCode = 416
    ∧ (servePartialContent w file n
        (str "bytes=" ++ strconv.FormatInt a ++ str "-" ++ strconv.FormatInt b)).body
        = str "Invalid range" ++ [10]
    ∧ (servePartialContent w file n
        (str "bytes=" ++ (45 :: strconv.FormatInt a) ++ str "-" ++ strconv.FormatInt b)).statusCode
        = 400 := by
  have hsplit := Split_rangeHeader (strconv.FormatUint a) (strconv.FormatUint b)
    (FormatUint_not_mem a 61 (by omega)) (FormatUint_not_mem b 61 (by omega))
  have hspec := Split_rangeSpec (strconv.FormatUint a) (strconv.FormatUint b)
    (FormatUint_not_mem a 45 (by omega)) (FormatUint_not_mem b 45 (by omega))
  have hne : strconv.FormatUint b ≠ [] := FormatUint_ne_nil b
  have hserve := serve_unsatisfiable w file n _ _ _ _ (a : Int) (b : Int) hsplit hspec
    (ParseInt_FormatUint a ha) (by rw [if_neg hne]; exact ParseInt_FormatUint b hb)
    (by omega)
  rw [FormatInt_natCast, FormatInt_natCast]
  refine ⟨hserve, ?_, ?_, ?_⟩
  · rw [hserve]; exact Error_status _ _ _ hstatus
  · rw [hserve, Error_body, hbody]; rfl
  · have h61 : (61 : Nat) ∉ (45 :: strconv.FormatUint a) := by
      simp [FormatUint_not_mem a 61 (by omega)]
    have hsplit2 := Split_rangeHeader (45 :: strconv.FormatUint a) (strconv.FormatUint b)
      h61 (FormatUint_not_mem b 61 (by omega))
    have hspec2 : strings.Split (45 :: strconv.FormatUint a ++ str "-" ++ strconv.FormatUint b) 45
        = [[], strconv.FormatUint a, strconv.FormatUint b] := by
      have e : 45 :: strconv.FormatUint a ++ str "-" ++ strconv.FormatUint b
          = [] ++ 45 :: (strconv.FormatUint a ++ str "-" ++ strconv.FormatUint b) := by simp
      rw [e, Split_append_sep _ _ _ (by simp), hspec]
    rw [serve_bad_values w file n _ _ hsplit2 (by rw [hspec2]; simp)]
    exact Error_status _ _ _ hstatus

/-- Witness for `servePartialContent_unsatisfiable_range`: `bytes=7-3` on five bytes. -/
theorem servePartialContent_unsatisfiable_range_witness :
    (servePartialContent ResponseWriter.fresh [10, 20, 30, 40, 50] 5
      (str "bytes=" ++ strconv.FormatInt (7 : Nat) ++ str "-"
        ++ strconv.FormatInt (3 : Nat))).statusCode = 416 :=
  (servePartialContent_unsatisfiable_range ResponseWriter.fresh [10, 20, 30, 40, 50] 5 7 3
    rfl rfl (by norm_num) (by norm_num) (Or.inl (by decide))).2.1

/-- C3: every malformed `Range` header is answered 400, never 206 or 416, whatever
the file and its size. -/
theorem servePartialContent_malformed (w : ResponseWriter) (file : GoString) (n : Int)
    (rangeHeader : GoString) (hstatus : w.status = none)
    (hbad : MalformedRangeHeader rangeHeader) :
    (servePartialContent w file n rangeHeader).statusCode = 400
    ∧ (servePartialContent w file n rangeHeader).statusCode ≠ 206
    ∧ (servePartialContent w file n rangeHeader).statusCode ≠ 416 := by
  have key : (servePartialContent w file n rangeHeader).statusCode = 400 := by
    unfold MalformedRangeHeader at hbad
    simp only at hbad
    by_cases hlen : (strings.Split rangeHeader 61).length = 2
    · obtain ⟨unit, spec, hsplit⟩ : ∃ unit spec, strings.Split rangeHeader 61 = [unit, spec] := by
        match hs : strings.Split rangeHeader 61, hlen with
        | [u, s], _ => exact ⟨u, s, rfl⟩
      rw [hsplit] at hbad
      simp only [List.length_cons, List.length_nil, List.getD_cons_zero, List.getD_cons_succ]
        at hbad
      by_cases hunit : unit = str "bytes"
      · subst hunit
        by_cases hlen2 : (strings.Split spec 45).length = 2
        · obtain ⟨first, last, hspec⟩ : ∃ first last, strings.Split spec 45 = [first, last] := by
            match hs : strings.Split spec 45, hlen2 with
            | [u, s], _ => exact ⟨u, s, rfl⟩
          rw [hspec] at hbad
          simp only [List.length_cons, List.length_nil, List.getD_cons_zero,
            List.getD_cons_succ] at hbad
          cases hstart : strconv.ParseInt first with
          | none =>
            rw [serve_bad_start w file n _ _ _ _ hsplit hspec hstart]
            exact Error_status _ _ _ hstatus
          | some startPos =>
            rcases hbad with h | h | h | h | ⟨h1, h2⟩
            · exact absurd rfl h
            · exact absurd rfl h
            · exact absurd rfl h
            · rw [hstart] at h; exact absurd h (by simp)
            · rw [serve_bad_end w file n _ _ _ _ startPos hsplit hspec hstart h1 h2]
              exact Error_status _ _ _ hstatus
        · rw [serve_bad_values w file n _ _ hsplit hlen2]
          exact Error_status _ _ _ hstatus
      · rw [serve_bad_unit w file n _ _ _ hsplit hunit]
        exact Error_status _ _ _ hstatus
    · rw [serve_bad_parts w file n _ hlen]
      exact Error_status _ _ _ hstatus
  rw [key]
  exact ⟨rfl, by decide, by decide⟩

/-- Witness for `servePartialContent_malformed`: the header `bytes=abc`. -/
theorem servePartialContent_malformed_witness :
    MalformedRangeHeader (str "bytes=abc")
    ∧ (servePartialContent ResponseWriter.fresh [10, 20, 30] 3 (str "bytes=abc")).statusCode
      = 400 :=
  ⟨by unfold MalformedRangeHeader; decide,
    (servePartialContent_malformed ResponseWriter.fresh [10, 20, 30] 3 (str "bytes=abc") rfl
      (by unfold MalformedRangeHeader; decide)).1⟩

theorem Split_length (s : GoString) (sep : Nat) :
    (strings.Split s sep).length = s.count sep + 1 := by
  induction s with
  | nil => simp [strings.Split]
  | cons c cs ih =>
    unfold strings.Split
    by_cases hc : c = sep
    · subst hc
      simp [ih]
    · rw [if_neg hc, List.count_cons_of_ne (fun e => hc e.symm)]
      split
      · rename_i heq
        exact absurd heq (Split_ne_nil cs sep)
      · rename_i p ps heq
        rw [heq] at ih
        simpa using ih

/-- C4, refuted as stated: on the empty file (`n = 0`) the open-ended header
`bytes=0-` is answered 416, while the explicit header `bytes=0-<n-1>`, which reads
`bytes=0--1`, is answered 400. -/
theorem servePartialContent_open_ended_empty_file :
    str "bytes=" ++ strconv.FormatInt 0 ++ str "-" ++ strconv.FormatInt (0 - 1)
      = str "bytes=0--1"
    ∧ (servePartialContent ResponseWriter.fresh [] 0 (str "bytes=0-")).statusCode = 416
    ∧ (servePartialContent ResponseWriter.fresh [] 0 (str "bytes=0--1")).statusCode = 400
    ∧ servePartialContent ResponseWriter.fresh [] 0 (str "bytes=0-")
      ≠ servePartialContent ResponseWriter.fresh [] 0 (str "bytes=0--1") := by
  refine ⟨by decide, by decide, by decide, by decide⟩

/-- C4, amended: for every file whose size `n` is at least 1 and every start `a`
(any byte string, so every decimal integer), the whole response (status, headers
and body) to the open-ended header `bytes=<a>-` equals the response to the explicit
header `bytes=<a>-<n-1>`. -/
theorem servePartialContent_open_ended (w : ResponseWriter) (file : GoString) (n : Nat)
    (a : GoString) (hn : 1 ≤ n) (hn63 : n < 2 ^ 63) :
    servePartialContent w file (n : Int) (str "bytes=" ++ a ++ str "-")
      = servePartialContent w file (n : Int)
          (str "bytes=" ++ a ++ str "-" ++ strconv.FormatInt ((n : Int) - 1)) := by
  have hcast : ((n : Int) - 1) = ((n - 1 : Nat) : Int) := by omega
  rw [hcast, FormatInt_natCast]
  have hE61 : (61 : Nat) ∉ strconv.FormatUint (n - 1) := FormatUint_not_mem _ 61 (by omega)
  have hE45 : (45 : Nat) ∉ strconv.FormatUint (n - 1) := FormatUint_not_mem _ 45 (by omega)
  have hEne : strconv.FormatUint (n - 1) ≠ [] := FormatUint_ne_nil _
  have hEparse : strconv.ParseInt (strconv.FormatUint (n - 1)) = some ((n : Int) - 1) := by
    rw [hcast]
    exact ParseInt_FormatUint (n - 1) (by omega)
  have hnil : str "bytes=" ++ a ++ str "-" = str "bytes=" ++ a ++ str "-" ++ [] := by simp
  by_cases h61 : (61 : Nat) ∈ a
  · have hc : 1 ≤ a.count 61 := List.count_pos_iff.2 h61
    have hb : (str "bytes=").count 61 = 1 := by decide
    rw [serve_bad_parts w file n _ (by
        rw [Split_length]; simp only [List.count_append, hb]; omega),
      serve_bad_parts w file n _ (by
        rw [Split_length]; simp only [List.count_append, hb]; omega)]
  · have hsplitL := Split_rangeHeader a [] h61 (by simp)
    have hsplitR := Split_rangeHeader a (strconv.FormatUint (n - 1)) h61 hE61
    rw [← hnil] at hsplitL
    by_cases h45 : (45 : Nat) ∈ a
    · have hc : 1 ≤ a.count 45 := List.count_pos_iff.2 h45
      have hd : (str "-").count 45 = 1 := by decide
      rw [serve_bad_values w file n _ _ hsplitL (by
          rw [Split_length]; simp only [List.count_append, hd]; omega),
        serve_bad_values w file n _ _ hsplitR (by
          rw [Split_length]; simp only [List.count_append, hd]; omega)]
    · have hspecL := Split_rangeSpec a [] h45 (by simp)
      have hspecR := Split_rangeSpec a (strconv.FormatUint (n - 1)) h45 hE45
      cases hstart : strconv.ParseInt a with
      | none =>
        rw [serve_bad_start w file n _ _ _ _ hsplitL hspecL hstart,
          serve_bad_start w file n _ _ _ _ hsplitR hspecR hstart]
      | some startPos =>
        unfold servePartialContent
        rw [hsplitL, hsplitR]
        simp only [ne_eq, not_true_eq_false, if_false, hspecL, hspecR, hstart, if_true,
          hEne, hEparse]

/-- Witness for `servePartialContent_open_ended`: `bytes=2-` on a five-byte file. -/
theorem servePartialContent_open_ended_witness :
    servePartialContent ResponseWriter.fresh [10, 20, 30, 40, 50] (5 : Nat) (str "bytes=2-")
      = servePartialContent ResponseWriter.fresh [10, 20, 30, 40, 50] (5 : Nat)
          (str "bytes=2-4")
    ∧ (servePartialContent ResponseWriter.fresh [10, 20, 30, 40, 50] (5 : Nat)
          (str "bytes=2-")).body = [30, 40, 50] :=
  ⟨servePartialContent_open_ended ResponseWriter.fresh [10, 20, 30, 40, 50] 5 (str "2")
    (by decide) (by norm_num), by decide⟩

/-! ## Lemmas: the episode resolver -/

theorem length_two (s : GoString) (h : s.length = 2) : ∃ a b, s = [a, b] := by
  match s, h with
  | [a, b], _ => exact ⟨a, b, rfl⟩

theorem firstExisting_first (world : World) (dir name : GoString) (exts : List GoString)
    (h : ∃ ext ∈ exts, utils.FileExists world.notExist (filepath.Join dir (name ++ ext)) = true) :
    ∃ pre ext post, exts = pre ++ ext :: post
      ∧ (∀ x ∈ pre, utils.FileExists world.notExist (filepath.Join dir (name ++ x)) = false)
      ∧ utils.FileExists world.notExist (filepath.Join dir (name ++ ext)) = true
      ∧ firstExisting world dir name exts = some (filepath.Join dir (name ++ ext)) := by
  induction exts with
  | nil => obtain ⟨ext, hmem, _⟩ := h; simp at hmem
  | cons e es ih =>
    by_cases he : utils.FileExists world.notExist (filepath.Join dir (name ++ e)) = true
    · exact ⟨[], e, es, rfl, by simp, he, by simp [firstExisting, he]⟩
    · have h2 : ∃ ext ∈ es, utils.FileExists world.notExist (filepath.Join dir (name ++ ext)) = true := by
        obtain ⟨ext, hmem, hex⟩ := h
        rcases List.mem_cons.1 hmem with rfl | hmem2
        · exact absurd hex he
        · exact ⟨ext, hmem2, hex⟩
      obtain ⟨pre, ext, post, hsplit, hpre, hext, hfirst⟩ := ih h2
      refine ⟨e :: pre, ext, post, by simp [hsplit], ?_, hext, ?_⟩
      · intro x hx
        rcases List.mem_cons.1 hx with rfl | hx2
        · simpa using he
        · exact hpre x hx2
      · simp [firstExisting, he, hfirst]

theorem TrimPrefix_Show (rest : GoString) :
    strings.TrimPrefix (str "Show_" ++ rest) (str "Show_") = rest := by
  simp [strings.TrimPrefix, strings.HasPrefix, str]

theorem findEpisodeVideoFile_wellformed (world : World) (cfg : Config)
    (episodeID : GoString) (s1 s2 : Nat) (episodeNum : GoString)
    (htrim : strings.TrimPrefix episodeID (str "Show_") = 83 :: s1 :: s2 :: 69 :: episodeNum)
    (hlen : 2 ≤ episodeNum.length) :
    findEpisodeVideoFile world cfg episodeID
      = if !utils.FileExists world.notExist (filepath.Join cfg.SeasonsDir (str "season-" ++ [s1, s2]))
        then .error (Failure.err (str "season directory not found: "
          ++ filepath.Join cfg.SeasonsDir (str "season-" ++ [s1, s2])))
        else
          match firstExisting world (filepath.Join cfg.SeasonsDir (str "season-" ++ [s1, s2]))
              (str "episode-" ++ episodeNum) videoExtensions with
          | some filePath => .ok filePath
          | none =>
            match utils.FindFiles world
                (filepath.Join cfg.SeasonsDir (str "season-" ++ [s1, s2]))
                cfg.VideoFilePattern with
            | (_, some err) => .error (Failure.err err)
            | (videoFiles, none) =>
              match firstPartialMatch (str "episode-" ++ episodeNum) videoFiles with
              | some videoFile => .ok videoFile
              | none =>
                .error (Failure.err (str "video file not found for episode: " ++ episodeID)) := by
  have hl : ¬ ((83 :: s1 :: s2 :: 69 :: episodeNum).length < 6) := by
    simp only [List.length_cons]; omega
  have h1 : sliceTo (83 :: s1 :: s2 :: 69 :: episodeNum) 3 = .ok [83, s1, s2] := by
    simp [sliceTo]
  have h2 : sliceFrom (83 :: s1 :: s2 :: 69 :: episodeNum) 3 = .ok (69 :: episodeNum) := by
    simp [sliceFrom]
  have h3 : strings.HasPrefix [83, s1, s2] (str "S") = true := by
    simp [strings.HasPrefix, str]
  have h4 : strings.HasPrefix (69 :: episodeNum) (str "E") = true := by
    simp [strings.HasPrefix, str]
  have h5 : sliceFrom [83, s1, s2] 1 = .ok [s1, s2] := by simp [sliceFrom]
  have h6 : sliceFrom (69 :: episodeNum) 1 = .ok episodeNum := by simp [sliceFrom]
  unfold findEpisodeVideoFile
  simp only [htrim, if_neg hl, h1, h2, h3, h4, h5, h6, Bool.not_true, Bool.false_eq_true,
    if_false]

theorem GetEpisodeSubtitlePath_wellformed (world : World) (cfg : Config)
    (episodeID : GoString) (s1 s2 : Nat) (episodeNum : GoString)
    (htrim : strings.TrimPrefix episodeID (str "Show_") = 83 :: s1 :: s2 :: 69 :: episodeNum)
    (hlen : 2 ≤ episodeNum.length) :
    GetEpisodeSubtitlePath world cfg episodeID
      = if !utils.FileExists world.notExist (filepath.Join
            (filepath.Join (filepath.Dir cfg.SeasonsDir) (str "subtitles"))
            (str "season-" ++ [s1, s2]))
        then .error (Failure.err (str "subtitle directory not found: "
          ++ filepath.Join (filepath.Join (filepath.Dir cfg.SeasonsDir) (str "subtitles"))
            (str "season-" ++ [s1, s2])))
        else
          match firstExisting world (filepath.Join
              (filepath.Join (filepath.Dir cfg.SeasonsDir) (str "subtitles"))
              (str "season-" ++ [s1, s2]))
              (str "episode-" ++ episodeNum) subtitleExtensions with
          | some filePath => .ok filePath
          | none =>
            match utils.FindFiles world (filepath.Join
                (filepath.Join (filepath.Dir cfg.SeasonsDir) (str "subtitles"))
                (str "season-" ++ [s1, s2])) cfg.SubtitleFilePattern with
            | (_, some err) => .error (Failure.err err)
            | (subtitleFiles, none) =>
              match firstPartialMatch (str "episode-" ++ episodeNum) subtitleFiles with
              | some subtitleFile => .ok subtitleFile
              | none =>
                .error (Failure.err
                  (str "subtitle file not found for episode: " ++ episodeID)) := by
  have hl : ¬ ((83 :: s1 :: s2 :: 69 :: episodeNum).length < 6) := by
    simp only [List.length_cons]; omega
  have h1 : sliceTo (83 :: s1 :: s2 :: 69 :: episodeNum) 3 = .ok [83, s1, s2] := by
    simp [sliceTo]
  have h2 : sliceFrom (83 :: s1 :: s2 :: 69 :: episodeNum) 3 = .ok (69 :: episodeNum) := by
    simp [sliceFrom]
  have h3 : strings.HasPrefix [83, s1, s2] (str "S") = true := by
    simp [strings.HasPrefix, str]
  have h4 : strings.HasPrefix (69 :: episodeNum) (str "E") = true := by
    simp [strings.HasPrefix, str]
  have h5 : sliceFrom [83, s1, s2] 1 = .ok [s1, s2] := by simp [sliceFrom]
  have h6 : sliceFrom (69 :: episodeNum) 1 = .ok episodeNum := by simp [sliceFrom]
  unfold GetEpisodeSubtitlePath
  simp only [htrim, if_neg hl, h1, h2, h3, h4, h5, h6, Bool.not_true, Bool.false_eq_true,
    if_false]

theorem GetEpisodeVideoPath_eq (world : World) (cfg : Config) (episodeID : GoString) :
    GetEpisodeVideoPath world cfg episodeID = findEpisodeVideoFile world cfg episodeID := by
  unfold GetEpisodeVideoPath
  split <;> simp_all

theorem episodeID_shape (s1 s2 : Nat) (episodeNum : GoString) :
    str "Show_S" ++ [s1, s2] ++ str "E" ++ episodeNum
      = str "Show_" ++ 83 :: s1 :: s2 :: 69 :: episodeNum := by
  simp [str]

/-- C5: for two-byte season and episode numbers `SS`, `EE`, when the season directory
exists and at least one of `episode-EE.mp4, .mkv, .avi, .mov, .wmv` exists in it,
`GetEpisodeVideoPath("Show_S"+SS+"E"+EE)` returns, without error, the path
`<seasonsDir>/season-SS/episode-EE<ext>` for the first extension of that list whose
file exists; `GetEpisodeSubtitlePath` does the same with `.srt, .vtt` under the
sibling `subtitles` directory. -/
theorem GetEpisodePath_first_extension (world : World) (cfg : Config) (SS EE : GoString)
    (hSS : SS.length = 2) (hEE : EE.length = 2) :
    (utils.FileExists world.notExist (filepath.Join cfg.SeasonsDir (str "season-" ++ SS)) = true →
      (∃ ext ∈ videoExtensions, utils.FileExists world.notExist
        (filepath.Join (filepath.Join cfg.SeasonsDir (str "season-" ++ SS))
          (str "episode-" ++ EE ++ ext)) = true) →
      ∃ pre ext post, videoExtensions = pre ++ ext :: post
        ∧ (∀ x ∈ pre, utils.FileExists world.notExist
            (filepath.Join (filepath.Join cfg.SeasonsDir (str "season-" ++ SS))
              (str "episode-" ++ EE ++ x)) = false)
        ∧ utils.FileExists world.notExist
            (filepath.Join (filepath.Join cfg.SeasonsDir (str "season-" ++ SS))
              (str "episode-" ++ EE ++ ext)) = true
        ∧ GetEpisodeVideoPath world cfg (str "Show_S" ++ SS ++ str "E" ++ EE)
          = .ok (filepath.Join (filepath.Join cfg.SeasonsDir (str "season-" ++ SS))
              (str "episode-" ++ EE ++ ext)))
    ∧ (utils.FileExists world.notExist (filepath.Join
          (filepath.Join (filepath.Dir cfg.SeasonsDir) (str "subtitles"))
          (str "season-" ++ SS)) = true →
      (∃ ext ∈ subtitleExtensions, utils.FileExists world.notExist
        (filepath.Join (filepath.Join
          (filepath.Join (filepath.Dir cfg.SeasonsDir) (str "subtitles"))
          (str "season-" ++ SS)) (str "episode-" ++ EE ++ ext)) = true) →
      ∃ pre ext post, subtitleExtensions = pre ++ ext :: post
        ∧ (∀ x ∈ pre, utils.FileExists world.notExist
            (filepath.Join (filepath.Join
              (filepath.Join (filepath.Dir cfg.SeasonsDir) (str "subtitles"))
              (str "season-" ++ SS)) (str "episode-" ++ EE ++ x)) = false)
        ∧ utils.FileExists world.notExist
            (filepath.Join (filepath.Join
              (filepath.Join (filepath.Dir cfg.SeasonsDir) (str "subtitles"))
              (str "season-" ++ SS)) (str "episode-" ++ EE ++ ext)) = true
        ∧ GetEpisodeSubtitlePath world cfg (str "Show_S" ++ SS ++ str "E" ++ EE)
          = .ok (filepath.Join (filepath.Join
              (filepath.Join (filepath.Dir cfg.SeasonsDir) (str "subtitles"))
              (str "season-" ++ SS)) (str "episode-" ++ EE ++ ext))) := by
  obtain ⟨s1, s2, rfl⟩ := length_two SS hSS
  have htrim : strings.TrimPrefix (str "Show_S" ++ [s1, s2] ++ str "E" ++ EE) (str "Show_")
      = 83 :: s1 :: s2 :: 69 :: EE := by
    rw [episodeID_shape, TrimPrefix_Show]
  constructor
  · intro hdir hfile
    obtain ⟨pre, ext, post, hsplit, hpre, hext, hfirst⟩ :=
      firstExisting_first world _ (str "episode-" ++ EE) videoExtensions hfile
    refine ⟨pre, ext, post, hsplit, hpre, hext, ?_⟩
    rw [GetEpisodeVideoPath_eq,
      findEpisodeVideoFile_wellformed world cfg _ s1 s2 EE htrim (by omega)]
    simp only [hdir, hfirst, Bool.not_true, Bool.false_eq_true, if_false]
  · intro hdir hfile
    obtain ⟨pre, ext, post, hsplit, hpre, hext, hfirst⟩ :=
      firstExisting_first world _ (str "episode-" ++ EE) subtitleExtensions hfile
    refine ⟨pre, ext, post, hsplit, hpre, hext, ?_⟩
    rw [GetEpisodeSubtitlePath_wellformed world cfg _ s1 s2 EE htrim (by omega)]
    simp only [hdir, hfirst, Bool.not_true, Bool.false_eq_true, if_false]

/-- Witness for `GetEpisodePath_first_extension`: in the sample library season 01
holds `episode-02.mkv` and `episode-02.avi` and no `episode-02.mp4`. -/
theorem GetEpisodePath_first_extension_witness :
    (∃ pre ext post, videoExtensions = pre ++ ext :: post
      ∧ (∀ x ∈ pre, utils.FileExists sampleWorld.notExist
          (filepath.Join (filepath.Join sampleConfig.SeasonsDir (str "season-" ++ str "01"))
            (str "episode-" ++ str "02" ++ x)) = false)
      ∧ utils.FileExists sampleWorld.notExist
          (filepath.Join (filepath.Join sampleConfig.SeasonsDir (str "season-" ++ str "01"))
            (str "episode-" ++ str "02" ++ ext)) = true
      ∧ GetEpisodeVideoPath sampleWorld sampleConfig
          (str "Show_S" ++ str "01" ++ str "E" ++ str "02")
        = .ok (filepath.Join
            (filepath.Join sampleConfig.SeasonsDir (str "season-" ++ str "01"))
            (str "episode-" ++ str "02" ++ ext)))
    ∧ GetEpisodeVideoPath sampleWorld sampleConfig (str "Show_S01E02")
        = .ok (str "media/shows/season-01/episode-02.mkv")
    ∧ GetEpisodeSubtitlePath sampleWorld sampleConfig (str "Show_S01E02")
        = .ok (str "media/subtitles/season-01/episode-02.vtt") :=
  ⟨(GetEpisodePath_first_extension sampleWorld sampleConfig (str "01") (str "02") rfl rfl).1
      (by decide) ⟨str ".mkv", by decide, by decide⟩,
    by rfl, by rfl⟩

/-- C6, refuted as stated: with the prefix `Lost`, the id `Lost_S02E01` is not
stripped (only the literal `Show_` is), its first three bytes `Los` do not start
with `S`, and the resolver returns an error although
`media/shows/season-02/episode-01.mp4` exists. -/
theorem GetEpisodeVideoPath_other_show_name :
    utils.FileExists sampleWorld.notExist (str "media/shows/season-02/episode-01.mp4") = true
    ∧ filepath.Join (filepath.Join sampleConfig.SeasonsDir (str "season-" ++ str "02"))
        (str "episode-" ++ str "01" ++ str ".mp4") = str "media/shows/season-02/episode-01.mp4"
    ∧ GetEpisodeVideoPath sampleWorld sampleConfig
        (str "Lost" ++ str "_S" ++ str "02" ++ str "E" ++ str "01")
      = .error (Failure.err (str "invalid season format")) := by
  refine ⟨by decide, by decide, by rfl⟩

/-- C6, amended: for the prefix `Show` and every pair of two-byte (so every pair of
two-digit) numbers `DD`, `dd`, the resolver strips `Show_` from `Show_S<DD>E<dd>` and
resolves against directory `season-DD` and base file name `episode-dd`: whenever
that directory and `episode-dd.mp4` in it exist, `GetEpisodeVideoPath` returns that
path without error. -/
theorem GetEpisodeVideoPath_Show_name (world : World) (cfg : Config) (DD dd : GoString)
    (hDD : DD.length = 2) (hdd : dd.length = 2)
    (hdir : utils.FileExists world.notExist (filepath.Join cfg.SeasonsDir (str "season-" ++ DD)) = true)
    (hfile : utils.FileExists world.notExist
      (filepath.Join (filepath.Join cfg.SeasonsDir (str "season-" ++ DD))
        (str "episode-" ++ dd ++ str ".mp4")) = true) :
    GetEpisodeVideoPath world cfg (str "Show" ++ str "_S" ++ DD ++ str "E" ++ dd)
      = .ok (filepath.Join (filepath.Join cfg.SeasonsDir (str "season-" ++ DD))
          (str "episode-" ++ dd ++ str ".mp4")) := by
  obtain ⟨s1, s2, rfl⟩ := length_two DD hDD
  have hshape : str "Show" ++ str "_S" ++ [s1, s2] ++ str "E" ++ dd
      = str "Show_" ++ 83 :: s1 :: s2 :: 69 :: dd := by
    simp [str]
  have htrim : strings.TrimPrefix (str "Show" ++ str "_S" ++ [s1, s2] ++ str "E" ++ dd)
      (str "Show_") = 83 :: s1 :: s2 :: 69 :: dd := by
    rw [hshape, TrimPrefix_Show]
  have hfirst : firstExisting world (filepath.Join cfg.SeasonsDir (str "season-" ++ [s1, s2]))
      (str "episode-" ++ dd) videoExtensions
      = some (filepath.Join (filepath.Join cfg.SeasonsDir (str "season-" ++ [s1, s2]))
          (str "episode-" ++ dd ++ str ".mp4")) := by
    simp only [videoExtensions, firstExisting, hfile, if_true]
  rw [GetEpisodeVideoPath_eq,
    findEpisodeVideoFile_wellformed world cfg _ s1 s2 dd htrim (by omega)]
  simp only [hdir, hfirst, Bool.not_true, Bool.false_eq_true, if_false]

/-- Witness for `GetEpisodeVideoPath_Show_name`: `Show_S02E01` in the sample library. -/
theorem GetEpisodeVideoPath_Show_name_witness :
    GetEpisodeVideoPath sampleWorld sampleConfig
        (str "Show" ++ str "_S" ++ str "02" ++ str "E" ++ str "01")
      = .ok (filepath.Join (filepath.Join sampleConfig.SeasonsDir (str "season-" ++ str "02"))
          (str "episode-" ++ str "01" ++ str ".mp4")) :=
  GetEpisodeVideoPath_Show_name sampleWorld sampleConfig (str "02") (str "01") rfl rfl
    (by decide) (by decide)

theorem firstExisting_none (world : World) (dir name : GoString) (exts : List GoString)
    (h : ∀ ext ∈ exts, utils.FileExists world.notExist (filepath.Join dir (name ++ ext)) = false) :
    firstExisting world dir name exts = none := by
  induction exts with
  | nil => rfl
  | cons e es ih =>
    have he := h e (by simp)
    simp only [firstExisting, he, Bool.false_eq_true, if_false]
    exact ih (fun ext hext => h ext (by simp [hext]))

theorem firstPartialMatch_none (name : GoString) (files : List GoString)
    (h : ∀ videoFile ∈ files,
      (strings.Contains
          (strings.TrimSuffix (filepath.Base videoFile) (filepath.Ext videoFile)) name
        || strings.Contains name
          (strings.TrimSuffix (filepath.Base videoFile) (filepath.Ext videoFile))) = false) :
    firstPartialMatch name files = none := by
  induction files with
  | nil => rfl
  | cons f fs ih =>
    have hf := h f (by simp)
    simp only [firstPartialMatch, hf, Bool.false_eq_true, if_false]
    exact ih (fun g hg => h g (by simp [hg]))

/-- Every id is either rejected with an error by the format checks, or has the shape
`S s1 s2 E num` (after the prefix is stripped) with at least two bytes in `num`. -/
theorem findEpisodeVideoFile_shape (world : World) (cfg : Config) (episodeID : GoString) :
    (∃ msg, findEpisodeVideoFile world cfg episodeID = .error (Failure.err msg)
      ∧ ((strings.TrimPrefix episodeID (str "Show_")).length < 6
        ∨ (strings.TrimPrefix episodeID (str "Show_"))[0]? ≠ some 83
        ∨ (strings.TrimPrefix episodeID (str "Show_"))[3]? ≠ some 69))
    ∨ ∃ s1 s2 num, strings.TrimPrefix episodeID (str "Show_") = 83 :: s1 :: s2 :: 69 :: num
        ∧ 2 ≤ num.length := by
  by_cases hl : (strings.TrimPrefix episodeID (str "Show_")).length < 6
  · left
    refine ⟨str "invalid episode ID format", ?_, Or.inl hl⟩
    unfold findEpisodeVideoFile
    simp only [hl, if_true]
  · match ht : strings.TrimPrefix episodeID (str "Show_"), hl with
    | c0 :: c1 :: c2 :: c3 :: c4 :: c5 :: rest, hl' =>
      by_cases h0 : c0 = 83
      · by_cases h3 : c3 = 69
        · right
          exact ⟨c1, c2, c4 :: c5 :: rest, by rw [h0, h3], by simp⟩
        · left
          refine ⟨str "invalid episode format", ?_, Or.inr (Or.inr (by simp [h3]))⟩
          have h1 : sliceTo (c0 :: c1 :: c2 :: c3 :: c4 :: c5 :: rest) 3 = .ok [c0, c1, c2] := by
            simp [sliceTo]
          have h2 : sliceFrom (c0 :: c1 :: c2 :: c3 :: c4 :: c5 :: rest) 3
              = .ok (c3 :: c4 :: c5 :: rest) := by
            simp [sliceFrom]
          have hp1 : strings.HasPrefix [c0, c1, c2] (str "S") = true := by
            simp [strings.HasPrefix, str, h0]
          have hp2 : strings.HasPrefix (c3 :: c4 :: c5 :: rest) (str "E") = false := by
            simp [strings.HasPrefix, str, List.isPrefixOf, Ne.symm h3]
          unfold findEpisodeVideoFile
          simp only [ht, if_neg hl', h1, h2, hp1, hp2, Bool.not_true, Bool.not_false,
            Bool.false_eq_true, if_false, if_true]
      · left
        refine ⟨str "invalid season format", ?_, Or.inr (Or.inl (by simp [h0]))⟩
        have h1 : sliceTo (c0 :: c1 :: c2 :: c3 :: c4 :: c5 :: rest) 3 = .ok [c0, c1, c2] := by
          simp [sliceTo]
        have hp1 : strings.HasPrefix [c0, c1, c2] (str "S") = false := by
          simp [strings.HasPrefix, str, List.isPrefixOf, Ne.symm h0]
        unfold findEpisodeVideoFile
        simp only [ht, if_neg hl', h1, hp1, Bool.not_false, if_true]
    | [], h | [_], h | [_, _], h | [_, _, _], h | [_, _, _, _], h | [_, _, _, _, _], h =>
      exact absurd (by simp) h

/-- The resolver never panics: no slice bound is out of range, whatever the id. -/
theorem findEpisodeVideoFile_no_panic (world : World) (cfg : Config) (episodeID : GoString) :
    findEpisodeVideoFile world cfg episodeID ≠ .error Failure.panic := by
  rcases findEpisodeVideoFile_shape world cfg episodeID with ⟨msg, h, _⟩ | ⟨s1, s2, num, ht, hn⟩
  · rw [h]; simp
  · rw [findEpisodeVideoFile_wellformed world cfg episodeID s1 s2 num ht hn]
    split
    · simp
    · split
      · simp
      · split
        · simp
        · split <;> simp

/-- C7: the season directory of the id `Show_S<NUL><NUL>E01` is absent (the file system
holds nothing), but `os.Stat` fails on its path with an error other than
"not exist", so `utils.FileExists` is true for it and for `episode-01.mp4` in it:
`GetEpisodeVideoPath` returns that path and no error, and the video handler, which
cannot open the file, answers 500 and not 404. -/
theorem GetEpisodeVideoPath_absent_directory_gives_path :
    nulWorld.notExist (str "media/shows/season-" ++ [0, 0]) = false
    ∧ utils.FileExists nulWorld.notExist (str "media/shows/season-" ++ [0, 0]) = true
    ∧ GetEpisodeVideoPath nulWorld sampleConfig (str "Show_S" ++ [0, 0] ++ str "E01")
      = .ok (str "media/shows/season-" ++ [0, 0] ++ str "/episode-01.mp4")
    ∧ ∃ r, ServeEpisodeVideo nulWorld sampleConfig ResponseWriter.fresh
        (str "/api/episode/Show_S" ++ [0, 0] ++ str "E01/video") [] = .ok r
      ∧ r.statusCode = 500 :=
  ⟨by decide, by decide, by rfl, ⟨_, rfl, by decide⟩⟩

/-! ## Lemmas: the next episode -/

theorem strLess_irrefl (s : GoString) : strLess s s = false := by
  induction s with
  | nil => rfl
  | cons c cs ih => simp [strLess, ih]

theorem findCurrentIndex_none (cur : GoString) (l : List EpisodeInfo) (i : Nat)
    (h : ∀ e ∈ l, e.ID ≠ cur) : findCurrentIndex cur l i = none := by
  induction l generalizing i with
  | nil => rfl
  | cons x xs ih =>
    have hx := h x (by simp)
    simp only [findCurrentIndex, hx, if_false]
    exact ih (i + 1) (fun e he => h e (by simp [he]))

theorem findCurrentIndex_first (cur : GoString) (pre : List EpisodeInfo) (e : EpisodeInfo)
    (post : List EpisodeInfo) (i : Nat) (he : e.ID = cur) (hpre : ∀ x ∈ pre, x.ID ≠ cur) :
    findCurrentIndex cur (pre ++ e :: post) i = some (i + pre.length) := by
  induction pre generalizing i with
  | nil => simp [findCurrentIndex, he]
  | cons x xs ih =>
    have hx := hpre x (by simp)
    show findCurrentIndex cur (x :: (xs ++ e :: post)) i = some (i + (x :: xs).length)
    simp only [findCurrentIndex, hx, if_false, List.length_cons]
    rw [ih (i + 1) (fun y hy => hpre y (by simp [hy]))]
    congr 1
    omega

theorem GetNextEpisodeID_many (world : World) (cfg : Config) (cur : GoString)
    (first second : EpisodeInfo) (rest : List EpisodeInfo)
    (hall : GetAllEpisodes world cfg = .ok (first :: second :: rest)) :
    GetNextEpisodeID world cfg cur
      = match findCurrentIndex cur (first :: second :: rest) 0 with
        | none => .ok first.ID
        | some currentIndex =>
          if currentIndex = (first :: second :: rest).length - 1 then .ok first.ID
          else
            match (first :: second :: rest)[currentIndex + 1]? with
            | some next => .ok next.ID
            | none => .error Failure.panic := by
  unfold GetNextEpisodeID
  rw [hall]

theorem SortedByID_head_lowest (first : EpisodeInfo) (rest : List EpisodeInfo)
    (h : SortedByID (first :: rest)) :
    ∀ e ∈ first :: rest, strLess e.ID first.ID = false := by
  intro e he
  rcases List.mem_cons.1 he with rfl | he2
  · exact strLess_irrefl _
  · exact (List.pairwise_cons.1 h).1 e he2

/-- C8, refuted as stated: in a sorted library where two sidecar files list
`Show_S01E02`, the current id `Show_S01E02` is the id of the last episode, yet
`GetNextEpisodeID` returns `Show_S01E02` again and not the first episode's id
`Show_S01E01`. -/
theorem GetNextEpisodeID_repeated_id :
    GetAllEpisodes duplicateWorld sampleConfig
      = .ok [⟨str "Show_S01E01", str "One", [], []⟩,
          ⟨str "Show_S01E02", str "Two (director cut)", [], []⟩,
          ⟨str "Show_S01E02", str "Two", [], []⟩]
    ∧ GetNextEpisodeID duplicateWorld sampleConfig (str "Show_S01E02")
      = .ok (str "Show_S01E02")
    ∧ str "Show_S01E02" ≠ str "Show_S01E01" := by
  refine ⟨by rfl, by rfl, by decide⟩

/-- C8, amended: for a library sorted ascending by id, `GetNextEpisodeID` returns an
error when the library is empty; the only episode's id when there is exactly one;
the first episode's id, which is a lowest id, when no episode carries the current
id or the first episode that carries it is the last of the list; and otherwise the
id of the episode right after the first episode that carries the current id. -/
theorem GetNextEpisodeID_spec (world : World) (cfg : Config) (cur : GoString)
    (episodes : List EpisodeInfo) (hall : GetAllEpisodes world cfg = .ok episodes)
    (hsorted : SortedByID episodes) :
    (episodes = [] → ∃ msg, GetNextEpisodeID world cfg cur = .error (Failure.err msg))
    ∧ (∀ only, episodes = [only] → GetNextEpisodeID world cfg cur = .ok only.ID)
    ∧ (∀ first rest, episodes = first :: rest →
        (∀ e ∈ episodes, e.ID ≠ cur) →
        GetNextEpisodeID world cfg cur = .ok first.ID
          ∧ ∀ e ∈ episodes, strLess e.ID first.ID = false)
    ∧ (∀ first rest pre last, episodes = first :: rest → episodes = pre ++ [last] →
        last.ID = cur → (∀ x ∈ pre, x.ID ≠ cur) →
        GetNextEpisodeID world cfg cur = .ok first.ID
          ∧ ∀ e ∈ episodes, strLess e.ID first.ID = false)
    ∧ (∀ pre current next post, episodes = pre ++ current :: next :: post →
        current.ID = cur → (∀ x ∈ pre, x.ID ≠ cur) →
        GetNextEpisodeID world cfg cur = .ok next.ID) := by
  refine ⟨?_, ?_, ?_, ?_, ?_⟩
  · intro hnil
    subst hnil
    exact ⟨str "no episodes found", by unfold GetNextEpisodeID; rw [hall]⟩
  · intro only hone
    subst hone
    unfold GetNextEpisodeID
    rw [hall]
  · intro first rest hshape hnone
    subst hshape
    refine ⟨?_, SortedByID_head_lowest first rest hsorted⟩
    cases rest with
    | nil => unfold GetNextEpisodeID; rw [hall]
    | cons second rest2 =>
      rw [GetNextEpisodeID_many world cfg cur first second rest2 hall,
        findCurrentIndex_none cur _ 0 hnone]
  · intro first rest pre last hshape hlast hid hpre
    have hlow : ∀ e ∈ episodes, strLess e.ID first.ID = false := by
      rw [hshape]
      exact SortedByID_head_lowest first rest (hshape ▸ hsorted)
    refine ⟨?_, hlow⟩
    cases rest with
    | nil =>
      rw [hshape] at hall
      unfold GetNextEpisodeID
      rw [hall]
    | cons second rest2 =>
      rw [hshape] at hall
      rw [GetNextEpisodeID_many world cfg cur first second rest2 hall]
      have hidx : findCurrentIndex cur (first :: second :: rest2) 0 = some (0 + pre.length) := by
        rw [← hshape, hlast]
        exact findCurrentIndex_first cur pre last [] 0 hid hpre
      have hlen : (first :: second :: rest2).length = pre.length + 1 := by
        rw [← hshape, hlast]; simp
      rw [hidx]
      simp only [hlen]
      simp
  · intro pre current next post hshape hid hpre
    have hidx : findCurrentIndex cur episodes 0 = some (0 + pre.length) := by
      rw [hshape]
      exact findCurrentIndex_first cur pre current (next :: post) 0 hid hpre
    have hnext : episodes[0 + pre.length + 1]? = some next := by
      rw [hshape]
      have e1 : pre ++ current :: next :: post = (pre ++ [current]) ++ next :: post := by simp
      have e2 : 0 + pre.length + 1 = (pre ++ [current]).length := by simp
      rw [e1, e2, List.getElem?_append_right (le_refl _)]
      simp
    have hlen : episodes.length = pre.length + post.length + 2 := by
      rw [hshape]; simp; omega
    match episodes, hall, hidx, hnext, hlen with
    | [], _, _, _, hlen => simp at hlen
    | [_], _, _, _, hlen => simp at hlen
    | first :: second :: rest2, hall, hidx, hnext, hlen =>
      rw [GetNextEpisodeID_many world cfg cur first second rest2 hall, hidx]
      have hne : ¬ (0 + pre.length = (first :: second :: rest2).length - 1) := by
        rw [hlen]; omega
      simp only [hne, if_false, hnext]

/-- Witness for `GetNextEpisodeID_spec`: the sorted library of `duplicateWorld`, in
which `Show_S01E01` is followed by `Show_S01E02`. -/
theorem GetNextEpisodeID_spec_witness :
    GetNextEpisodeID duplicateWorld sampleConfig (str "Show_S01E01") = .ok (str "Show_S01E02")
    ∧ GetNextEpisodeID duplicateWorld sampleConfig (str "Show_S07E07")
        = .ok (str "Show_S01E01") :=
  have hall : GetAllEpisodes duplicateWorld sampleConfig
      = .ok [⟨str "Show_S01E01", str "One", [], []⟩,
          ⟨str "Show_S01E02", str "Two (director cut)", [], []⟩,
          ⟨str "Show_S01E02", str "Two", [], []⟩] := by rfl
  have hsorted : SortedByID [(⟨str "Show_S01E01", str "One", [], []⟩ : EpisodeInfo),
      ⟨str "Show_S01E02", str "Two (director cut)", [], []⟩,
      ⟨str "Show_S01E02", str "Two", [], []⟩] := by
    unfold SortedByID
    decide
  ⟨(GetNextEpisodeID_spec duplicateWorld sampleConfig (str "Show_S01E01") _ hall hsorted).2.2.2.2
      [] _ _ _ rfl rfl (by simp),
    ((GetNextEpisodeID_spec duplicateWorld sampleConfig (str "Show_S07E07") _ hall hsorted).2.2.1
      _ _ rfl (by decide)).1⟩

/-! ## Lemmas: the playback state store -/

theorem coerceAux_of_valid (fuel : Nat) (s : GoString) (h : utf8.validAux fuel s = true) :
    utf8.coerceAux fuel s = s := by
  induction fuel generalizing s with
  | zero =>
    cases s with
    | nil => rfl
    | cons b rest => rfl
  | succ k ih =>
    cases s with
    | nil => rfl
    | cons b rest =>
      unfold utf8.validAux at h
      unfold utf8.coerceAux
      by_cases h0 : utf8.runeLen (b :: rest) = 0
      · rw [if_pos h0] at h
        exact absurd h (by simp)
      · rw [if_neg h0] at h
        rw [if_neg h0, ih _ h, List.take_append_drop]

theorem coerce_of_valid (s : GoString) (h : utf8.ValidString s = true) : utf8.coerce s = s :=
  coerceAux_of_valid s.length s h

theorem Lock_free : RWMutex.free.Lock = some ⟨0, true⟩ := rfl

theorem Decode_Encode (v prior : ServerState)
    (hvalid : utf8.ValidString v.CurrentEpisodeID = true)
    (ht : json.fitsInt64 v.PlaybackTimeSeconds = true)
    (hu : json.fitsInt64 v.LastUpdated = true) :
    json.Decode (json.Encode v) prior = (v, none) := by
  simp [json.Decode, json.Encode, json.decodeMember, ht, hu, coerce_of_valid _ hvalid]

theorem loadState_after_write (disk : Disk) (s : StateService) (v : ServerState)
    (hfree : s.mutex = RWMutex.free)
    (hvalid : utf8.ValidString v.CurrentEpisodeID = true)
    (ht : json.fitsInt64 v.PlaybackTimeSeconds = true)
    (hu : json.fitsInt64 v.LastUpdated = true) :
    loadState (disk.store s.stateFile (FileContent.holds (json.Encode v))) s
      = Call.returns { s with state := v, mutex := RWMutex.free } := by
  unfold loadState
  rw [hfree, Lock_free]
  simp [utils.FileExists, Disk.notExist, Disk.store, utils.ReadJSON,
    Decode_Encode v s.state hvalid ht hu, RWMutex.Unlock, RWMutex.free]

/-- C9, refuted as stated: for the non-empty id consisting of the single byte `FF`
(not valid UTF-8), `UpdateState` returns without error and holds the id in memory,
but the JSON file holds U+FFFD in its place, so a reload yields the id `EF BF BD`. -/
theorem UpdateState_invalid_utf8_not_reloaded :
    UpdateState WriteFault.none 100 emptyDisk
        ⟨str "data/state.json", ServerState.zero, RWMutex.free⟩ [255] 5
      = Call.returns
          (⟨str "data/state.json", ⟨[255], 5, 100⟩, RWMutex.free⟩,
            emptyDisk.store (str "data/state.json")
              (FileContent.holds (json.Encode ⟨[255], 5, 100⟩)),
            none)
    ∧ loadState (emptyDisk.store (str "data/state.json")
          (FileContent.holds (json.Encode ⟨[255], 5, 100⟩)))
        ⟨str "data/state.json", ⟨[255], 5, 100⟩, RWMutex.free⟩
      = Call.returns ⟨str "data/state.json", ⟨[239, 191, 189], 5, 100⟩, RWMutex.free⟩
    ∧ NewStateService (emptyDisk.store (str "data/state.json")
          (FileContent.holds (json.Encode ⟨[255], 5, 100⟩))) (str "data/state.json")
      = Call.returns ⟨str "data/state.json", ⟨[239, 191, 189], 5, 100⟩, RWMutex.free⟩
    ∧ (⟨[239, 191, 189], 5, 100⟩ : ServerState) ≠ ⟨[255], 5, 100⟩ := by
  refine ⟨by rfl, by rfl, by rfl, by decide⟩

/-- C9, amended: for every episode id `e` that is valid UTF-8 (as every id decoded
from a JSON request is), every `int64` playback time `t`, every prior state and
every `int64` clock value `now`, `UpdateState(e, t)` on a service whose lock is free
returns with the in-memory state exactly `(e, t, now)`; and when it returns without
error, which it does unless writing the file fails, both `loadState` and a fresh
`NewStateService` on the same path yield exactly that state. -/
theorem UpdateState_then_reload (fault : WriteFault) (now : Int) (disk : Disk)
    (s : StateService) (e : GoString) (t : Int)
    (hfree : s.mutex = RWMutex.free) (hvalid : utf8.ValidString e = true)
    (ht : json.fitsInt64 t = true) (hnow : json.fitsInt64 now = true) :
    ∃ disk2 err,
      UpdateState fault now disk s e t
        = Call.returns ({ s with state := ⟨e, t, now⟩, mutex := RWMutex.free }, disk2, err)
      ∧ (fault = WriteFault.none → err = none)
      ∧ (err = none →
          loadState disk2 { s with state := ⟨e, t, now⟩, mutex := RWMutex.free }
            = Call.returns { s with state := ⟨e, t, now⟩, mutex := RWMutex.free }
          ∧ NewStateService disk2 s.stateFile
            = Call.returns ⟨s.stateFile, ⟨e, t, now⟩, RWMutex.free⟩) := by
  refine ⟨(utils.WriteJSON fault disk s.stateFile ⟨e, t, now⟩).1,
    (utils.WriteJSON fault disk s.stateFile ⟨e, t, now⟩).2, ?_, ?_, ?_⟩
  · unfold UpdateState
    rw [hfree, Lock_free]
    rfl
  · intro hf
    subst hf
    rfl
  · intro herr
    cases fault with
    | ensureDir msg => simp [utils.WriteJSON] at herr
    | create msg => simp [utils.WriteJSON] at herr
    | write msg left => simp [utils.WriteJSON] at herr
    | none =>
      simp only [utils.WriteJSON]
      constructor
      · exact loadState_after_write disk { s with state := ⟨e, t, now⟩, mutex := RWMutex.free }
          ⟨e, t, now⟩ rfl hvalid ht hnow
      · exact loadState_after_write disk ⟨s.stateFile, ServerState.zero, RWMutex.free⟩
          ⟨e, t, now⟩ rfl hvalid ht hnow

/-- Witness for `UpdateState_then_reload`: `update("E1", 5)` at time 100 on an empty
disk, then a reload. -/
theorem UpdateState_then_reload_witness :
    ∃ disk2 err,
      UpdateState WriteFault.none 100 emptyDisk
          ⟨str "data/state.json", ServerState.zero, RWMutex.free⟩ (str "E1") 5
        = Call.returns (⟨str "data/state.json", ⟨str "E1", 5, 100⟩, RWMutex.free⟩, disk2, err)
      ∧ (WriteFault.none = WriteFault.none → err = none)
      ∧ (err = none →
          loadState disk2 ⟨str "data/state.json", ⟨str "E1", 5, 100⟩, RWMutex.free⟩
            = Call.returns ⟨str "data/state.json", ⟨str "E1", 5, 100⟩, RWMutex.free⟩
          ∧ NewStateService disk2 (str "data/state.json")
            = Call.returns ⟨str "data/state.json", ⟨str "E1", 5, 100⟩, RWMutex.free⟩) :=
  UpdateState_then_reload WriteFault.none 100 emptyDisk
    ⟨str "data/state.json", ServerState.zero, RWMutex.free⟩ (str "E1") 5 rfl (by decide)
    (by decide) (by decide)

/-- C10: `GetState` never returns. It takes the read lock and then calls `loadState`,
whose `Lock` can only be acquired while no reader holds the mutex; the reader is
the caller itself, so the call waits forever, on every service, also on one whose
lock no one holds. -/
theorem GetState_blocks_forever (disk : Disk) (s : StateService) :
    GetState disk s = Call.blocksForever
    ∧ GetState disk { s with mutex := RWMutex.free } = Call.blocksForever := by
  have key : ∀ s : StateService, GetState disk s = Call.blocksForever := by
    intro s
    unfold GetState RWMutex.RLock
    by_cases hw : s.mutex.writer = false
    · simp [hw, loadState, RWMutex.Lock]
    · simp [hw]
  exact ⟨key s, key _⟩



/-! ## The state store: reloads and rejected updates -/

theorem loadState_free (disk : Disk) (s : StateService) (hfree : s.mutex = RWMutex.free) :
    loadState disk s
      = Call.returns { s with
          state :=
            if utils.FileExists disk.notExist s.stateFile then
              match utils.ReadJSON disk s.stateFile s.state with
              | (_, some _) => ServerState.zero
              | (decoded, none) => decoded
            else ServerState.zero
          mutex := RWMutex.free } := by
  unfold loadState
  rw [hfree, Lock_free]
  rfl

/-- C11, refuted as stated: `loadState` decodes into the struct it already holds, so a
field that the file omits keeps its previous value. With the file `{}` and the prior
states `(E1, 5, 100)` and `(E2, 7, 200)` on a service whose lock is free, the two
reloads end in these two different states, neither of them the zero state. -/
theorem loadState_keeps_omitted_fields :
    loadState (emptyDisk.store (str "data/state.json")
        (FileContent.holds (json.Document.object [])))
        ⟨str "data/state.json", ⟨str "E1", 5, 100⟩, RWMutex.free⟩
      = Call.returns ⟨str "data/state.json", ⟨str "E1", 5, 100⟩, RWMutex.free⟩
    ∧ loadState (emptyDisk.store (str "data/state.json")
        (FileContent.holds (json.Document.object [])))
        ⟨str "data/state.json", ⟨str "E2", 7, 200⟩, RWMutex.free⟩
      = Call.returns ⟨str "data/state.json", ⟨str "E2", 7, 200⟩, RWMutex.free⟩
    ∧ (⟨str "E1", 5, 100⟩ : ServerState) ≠ ⟨str "E2", 7, 200⟩
    ∧ (⟨str "E1", 5, 100⟩ : ServerState) ≠ ServerState.zero := by
  refine ⟨by rfl, by rfl, by decide, by decide⟩

theorem decodeMember_keeps_id (acc : ServerState × Option GoString)
    (m : json.StateKey × json.Value) (h : m.1 ≠ json.StateKey.currentEpisodeId) :
    (json.decodeMember acc m).1.CurrentEpisodeID = acc.1.CurrentEpisodeID := by
  obtain ⟨k, v⟩ := m
  cases k <;> cases v <;>
    first
      | exact absurd rfl h
      | rfl
      | (simp only [json.decodeMember]; split <;> rfl)

theorem decodeMember_keeps_time (acc : ServerState × Option GoString)
    (m : json.StateKey × json.Value) (h : m.1 ≠ json.StateKey.playbackTimeSeconds) :
    (json.decodeMember acc m).1.PlaybackTimeSeconds = acc.1.PlaybackTimeSeconds := by
  obtain ⟨k, v⟩ := m
  cases k <;> cases v <;>
    first
      | exact absurd rfl h
      | rfl
      | (simp only [json.decodeMember]; split <;> rfl)

theorem decodeMember_keeps_updated (acc : ServerState × Option GoString)
    (m : json.StateKey × json.Value) (h : m.1 ≠ json.StateKey.lastUpdated) :
    (json.decodeMember acc m).1.LastUpdated = acc.1.LastUpdated := by
  obtain ⟨k, v⟩ := m
  cases k <;> cases v <;>
    first
      | exact absurd rfl h
      | rfl
      | (simp only [json.decodeMember]; split <;> rfl)

theorem foldl_decodeMember_keeps (members : List (json.StateKey × json.Value))
    (acc : ServerState × Option GoString) :
    ((∀ m ∈ members, m.1 ≠ json.StateKey.currentEpisodeId) →
      (members.foldl json.decodeMember acc).1.CurrentEpisodeID = acc.1.CurrentEpisodeID)
    ∧ ((∀ m ∈ members, m.1 ≠ json.StateKey.playbackTimeSeconds) →
      (members.foldl json.decodeMember acc).1.PlaybackTimeSeconds
        = acc.1.PlaybackTimeSeconds)
    ∧ ((∀ m ∈ members, m.1 ≠ json.StateKey.lastUpdated) →
      (members.foldl json.decodeMember acc).1.LastUpdated = acc.1.LastUpdated) := by
  induction members generalizing acc with
  | nil => simp
  | cons m ms ih =>
    obtain ⟨h1, h2, h3⟩ := ih (json.decodeMember acc m)
    refine ⟨?_, ?_, ?_⟩
    · intro h
      rw [List.foldl_cons, h1 (fun x hx => h x (by simp [hx])),
        decodeMember_keeps_id acc m (h m (by simp))]
    · intro h
      rw [List.foldl_cons, h2 (fun x hx => h x (by simp [hx])),
        decodeMember_keeps_time acc m (h m (by simp))]
    · intro h
      rw [List.foldl_cons, h3 (fun x hx => h x (by simp [hx])),
        decodeMember_keeps_updated acc m (h m (by simp))]

theorem loadState_same_file (disk1 disk2 : Disk) (s : StateService)
    (hsame : disk1 s.stateFile = disk2 s.stateFile) : loadState disk1 s = loadState disk2 s := by
  unfold loadState
  simp only [utils.FileExists, Disk.notExist, utils.ReadJSON, hsame]

/-- C11, amended: a reload that starts from the zero-value state, as every reload that the
program completes does (`loadState` is entered with a free lock only by
`NewStateService`), leaves a state that depends only on the file: for two disks that
hold the same content under the path, `NewStateService`, and `loadState` on any
service that holds the zero state, end in one and the same state. In particular,
when the file holds a JSON object that omits a field, the reloaded value of that
field is the zero value. -/
theorem NewStateService_depends_on_file (disk1 disk2 : Disk) (path : GoString)
    (hsame : disk1 path = disk2 path) :
    ∃ reloaded,
      NewStateService disk1 path = Call.returns ⟨path, reloaded, RWMutex.free⟩
      ∧ NewStateService disk2 path = Call.returns ⟨path, reloaded, RWMutex.free⟩
      ∧ (∀ s : StateService, s.stateFile = path → s.state = ServerState.zero →
          s.mutex = RWMutex.free →
          loadState disk1 s = Call.returns ⟨path, reloaded, RWMutex.free⟩
          ∧ loadState disk2 s = Call.returns ⟨path, reloaded, RWMutex.free⟩)
      ∧ ∀ members, disk1 path = FileContent.holds (json.Document.object members) →
          ((∀ m ∈ members, m.1 ≠ json.StateKey.currentEpisodeId) →
            reloaded.CurrentEpisodeID = [])
          ∧ ((∀ m ∈ members, m.1 ≠ json.StateKey.playbackTimeSeconds) →
            reloaded.PlaybackTimeSeconds = 0)
          ∧ ((∀ m ∈ members, m.1 ≠ json.StateKey.lastUpdated) →
            reloaded.LastUpdated = 0) := by
  have hnew : NewStateService disk1 path
      = Call.returns ⟨path,
          (if utils.FileExists disk1.notExist path then
            match utils.ReadJSON disk1 path ServerState.zero with
            | (_, some _) => ServerState.zero
            | (decoded, none) => decoded
          else ServerState.zero), RWMutex.free⟩ := by
    unfold NewStateService
    rw [loadState_free disk1 _ rfl]
  have hload : ∀ s : StateService, s.stateFile = path → s.state = ServerState.zero →
      s.mutex = RWMutex.free → loadState disk1 s = NewStateService disk1 path := by
    intro s hp hz hf
    obtain ⟨file, state, mutex⟩ := s
    simp only at hp hz hf
    subst hp hz hf
    rfl
  refine ⟨_, hnew, ?_, ?_, ?_⟩
  · rw [← hnew]
    unfold NewStateService
    exact (loadState_same_file disk1 disk2 _ hsame).symm
  · intro s hp hz hf
    refine ⟨by rw [hload s hp hz hf, hnew], ?_⟩
    rw [← loadState_same_file disk1 disk2 s (by rw [hp]; exact hsame), hload s hp hz hf, hnew]
  · intro members hfile
    have hex : utils.FileExists disk1.notExist path = true := by
      simp [utils.FileExists, Disk.notExist, hfile]
    have hread : utils.ReadJSON disk1 path ServerState.zero
        = members.foldl json.decodeMember (ServerState.zero, none) := by
      simp [utils.ReadJSON, hfile, json.Decode]
    obtain ⟨h1, h2, h3⟩ := foldl_decodeMember_keeps members (ServerState.zero, none)
    rw [if_pos hex, hread]
    cases hres : members.foldl json.decodeMember (ServerState.zero, none) with
    | mk decoded err =>
      rw [hres] at h1 h2 h3
      cases err with
      | some e => exact ⟨fun _ => rfl, fun _ => rfl, fun _ => rfl⟩
      | none => exact ⟨h1, h2, h3⟩

/-- Witness for `NewStateService_depends_on_file`: the file holds the object with the one
member `currentEpisodeId: "E9"`, on a disk with one other file and on a disk
without; the reload yields `(E9, 0, 0)` on both. -/
theorem NewStateService_depends_on_file_witness :
    (∃ reloaded,
      NewStateService
          (emptyDisk.store (str "data/state.json") (FileContent.holds (json.Document.object
            [(json.StateKey.currentEpisodeId, json.Value.string (str "E9"))])))
          (str "data/state.json")
        = Call.returns ⟨str "data/state.json", reloaded, RWMutex.free⟩
      ∧ NewStateService
          ((emptyDisk.store (str "data/other.json") FileContent.unreadable).store
            (str "data/state.json") (FileContent.holds (json.Document.object
              [(json.StateKey.currentEpisodeId, json.Value.string (str "E9"))])))
          (str "data/state.json")
        = Call.returns ⟨str "data/state.json", reloaded, RWMutex.free⟩
      ∧ reloaded.PlaybackTimeSeconds = 0 ∧ reloaded.LastUpdated = 0)
    ∧ NewStateService
          (emptyDisk.store (str "data/state.json") (FileContent.holds (json.Document.object
            [(json.StateKey.currentEpisodeId, json.Value.string (str "E9"))])))
          (str "data/state.json")
        = Call.returns ⟨str "data/state.json", ⟨str "E9", 0, 0⟩, RWMutex.free⟩ := by
  refine ⟨?_, by rfl⟩
  obtain ⟨reloaded, h1, h2, _, h4⟩ := NewStateService_depends_on_file
    (emptyDisk.store (str "data/state.json") (FileContent.holds (json.Document.object
      [(json.StateKey.currentEpisodeId, json.Value.string (str "E9"))])))
    ((emptyDisk.store (str "data/other.json") FileContent.unreadable).store
      (str "data/state.json") (FileContent.holds (json.Document.object
        [(json.StateKey.currentEpisodeId, json.Value.string (str "E9"))])))
    (str "data/state.json") (by decide)
  have h5 := h4 [(json.StateKey.currentEpisodeId, json.Value.string (str "E9"))] rfl
  exact ⟨reloaded, h1, h2, h5.2.1 (by decide), h5.2.2 (by decide)⟩

/-- C12, refuted as stated: `UpdateState("", 5)` returns no error, replaces the state in
memory by `("", 5, 100)` and writes it to the state file. -/
theorem UpdateState_accepts_empty_id :
    UpdateState WriteFault.none 100 emptyDisk
        ⟨str "data/state.json", ⟨str "E1", 3, 50⟩, RWMutex.free⟩ [] 5
      = Call.returns
          (⟨str "data/state.json", ⟨[], 5, 100⟩, RWMutex.free⟩,
            emptyDisk.store (str "data/state.json")
              (FileContent.holds (json.Encode ⟨[], 5, 100⟩)),
            none)
    ∧ (⟨[], 5, 100⟩ : ServerState) ≠ ⟨str "E1", 3, 50⟩
    ∧ emptyDisk.store (str "data/state.json")
          (FileContent.holds (json.Encode ⟨[], 5, 100⟩)) (str "data/state.json")
        ≠ emptyDisk (str "data/state.json") := by
  refine ⟨by rfl, by decide, by decide⟩

/-- C12, amended: `UpdateState` does not check the id (the handler does, before it
calls `UpdateState`). For every `t` and every prior state, `UpdateState("", t)` on a
service whose lock is free returns with the state in memory replaced by
`("", t, now)`; unless writing the file fails it returns no error, and the state
file then holds the encoding of that state. -/
theorem UpdateState_empty_id (fault : WriteFault) (now : Int) (disk : Disk)
    (s : StateService) (t : Int) (hfree : s.mutex = RWMutex.free) :
    ∃ disk2 err,
      UpdateState fault now disk s [] t
        = Call.returns ({ s with state := ⟨[], t, now⟩, mutex := RWMutex.free }, disk2, err)
      ∧ (fault = WriteFault.none →
          err = none ∧ disk2 s.stateFile = FileContent.holds (json.Encode ⟨[], t, now⟩)) := by
  refine ⟨(utils.WriteJSON fault disk s.stateFile ⟨[], t, now⟩).1,
    (utils.WriteJSON fault disk s.stateFile ⟨[], t, now⟩).2, ?_, ?_⟩
  · unfold UpdateState
    rw [hfree, Lock_free]
    rfl
  · intro hf
    subst hf
    exact ⟨rfl, by simp [utils.WriteJSON, Disk.store]⟩

/-- Witness for `UpdateState_empty_id`: the empty id with `t = 5` at time 100. -/
theorem UpdateState_empty_id_witness :
    ∃ disk2 err,
      UpdateState WriteFault.none 100 emptyDisk
          ⟨str "data/state.json", ⟨str "E1", 3, 50⟩, RWMutex.free⟩ [] 5
        = Call.returns (⟨str "data/state.json", ⟨[], 5, 100⟩, RWMutex.free⟩, disk2, err)
      ∧ (WriteFault.none = WriteFault.none →
          err = none
          ∧ disk2 (str "data/state.json") = FileContent.holds (json.Encode ⟨[], 5, 100⟩)) :=
  UpdateState_empty_id WriteFault.none 100 emptyDisk
    ⟨str "data/state.json", ⟨str "E1", 3, 50⟩, RWMutex.free⟩ 5 rfl

/-- C14: when the state file is missing, or exists and `ReadJSON` fails on it (it cannot
be opened, holds no JSON, holds a JSON value of the wrong kind, or decodes partly
before a type error), `loadState` on a service whose lock is free returns, reports
nothing, and leaves the zero state in memory, whatever the prior state. -/
theorem loadState_missing_or_corrupt (disk : Disk) (s : StateService)
    (hfree : s.mutex = RWMutex.free)
    (hbad : disk s.stateFile = FileContent.missing
      ∨ (utils.ReadJSON disk s.stateFile s.state).2 ≠ none) :
    loadState disk s
      = Call.returns { s with state := ServerState.zero, mutex := RWMutex.free } := by
  rw [loadState_free disk s hfree]
  rcases hbad with hmissing | herr
  · simp [utils.FileExists, Disk.notExist, hmissing]
  · by_cases hex : utils.FileExists disk.notExist s.stateFile = true
    · rw [if_pos hex]
      cases hr : utils.ReadJSON disk s.stateFile s.state with
      | mk decoded err =>
        rw [hr] at herr
        cases err with
        | none => exact absurd rfl herr
        | some e => rfl
    · rw [if_neg hex]

/-- Witness for `loadState_missing_or_corrupt`: a file whose `currentEpisodeId` decodes
and whose `playbackTimeSeconds` is a string, read over the prior state `(E1, 5, 100)`. -/
theorem loadState_missing_or_corrupt_witness :
    (utils.ReadJSON (emptyDisk.store (str "data/state.json")
        (FileContent.holds (json.Document.object
          [(json.StateKey.currentEpisodeId, json.Value.string (str "E9")),
            (json.StateKey.playbackTimeSeconds, json.Value.string (str "soon"))])))
        (str "data/state.json") ⟨str "E1", 5, 100⟩).1 = ⟨str "E9", 5, 100⟩
    ∧ loadState (emptyDisk.store (str "data/state.json")
        (FileContent.holds (json.Document.object
          [(json.StateKey.currentEpisodeId, json.Value.string (str "E9")),
            (json.StateKey.playbackTimeSeconds, json.Value.string (str "soon"))])))
        ⟨str "data/state.json", ⟨str "E1", 5, 100⟩, RWMutex.free⟩
      = Call.returns ⟨str "data/state.json", ServerState.zero, RWMutex.free⟩
    ∧ loadState emptyDisk ⟨str "data/state.json", ⟨str "E1", 5, 100⟩, RWMutex.free⟩
      = Call.returns ⟨str "data/state.json", ServerState.zero, RWMutex.free⟩ :=
  ⟨by decide,
    loadState_missing_or_corrupt _ ⟨str "data/state.json", ⟨str "E1", 5, 100⟩, RWMutex.free⟩
      rfl (Or.inr (by decide)),
    loadState_missing_or_corrupt emptyDisk
      ⟨str "data/state.json", ⟨str "E1", 5, 100⟩, RWMutex.free⟩ rfl (Or.inl rfl)⟩

/-- C13: the handler of `POST /api/show/state` answers a request whose decoded
`episodeId` is empty with 400 and leaves the service and the disk as they were (it
does not reach `UpdateState`, whatever `t`, the clock and the write fault are); a
request with a non-empty id is handed to `UpdateState`, and the answer is 200 when
`UpdateState` returns no error and 500 when it returns one. -/
theorem UpdatePlaybackState_status (fault : WriteFault) (now : Int) (disk : Disk)
    (s : StateService) (w : ResponseWriter) (request : PlaybackStateUpdateRequest)
    (hstatus : w.status = none) (hfree : s.mutex = RWMutex.free) :
    (request.EpisodeID = [] →
      ∃ r, UpdatePlaybackState fault now disk s w (.ok request) = Call.returns (s, disk, r)
        ∧ r.statusCode = 400)
    ∧ (request.EpisodeID ≠ [] →
      ∃ s2 disk2 err r,
        UpdateState fault now disk s request.EpisodeID request.PlaybackTimeSeconds
          = Call.returns (s2, disk2, err)
        ∧ UpdatePlaybackState fault now disk s w (.ok request) = Call.returns (s2, disk2, r)
        ∧ (err = none → r.statusCode = 200)
        ∧ (err ≠ none → r.statusCode = 500)
        ∧ (r.statusCode = 200 ↔ err = none)) := by
  constructor
  · intro hempty
    refine ⟨http.Error w (str "Episode ID is required") http.StatusBadRequest, ?_,
      Error_status _ _ _ hstatus⟩
    simp only [UpdatePlaybackState, hempty, if_true]
  · intro hne
    have hupd : UpdateState fault now disk s request.EpisodeID request.PlaybackTimeSeconds
        = Call.returns
          ({ s with
              state := ⟨request.EpisodeID, request.PlaybackTimeSeconds, now⟩
              mutex := RWMutex.free },
            (utils.WriteJSON fault disk s.stateFile
              ⟨request.EpisodeID, request.PlaybackTimeSeconds, now⟩).1,
            (utils.WriteJSON fault disk s.stateFile
              ⟨request.EpisodeID, request.PlaybackTimeSeconds, now⟩).2) := by
      unfold UpdateState
      rw [hfree, Lock_free]
      rfl
    cases herr : (utils.WriteJSON fault disk s.stateFile
        ⟨request.EpisodeID, request.PlaybackTimeSeconds, now⟩).2 with
    | none =>
      rw [herr] at hupd
      refine ⟨_, _, none,
        (w.Set (str "Content-Type") (str "application/json")).Write successBody, hupd, ?_, ?_, ?_,
        ?_⟩
      · simp only [UpdatePlaybackState, hne, if_false, hupd]
      · intro _
        simp [ResponseWriter.Write, ResponseWriter.WriteHeader, ResponseWriter.Set,
          ResponseWriter.statusCode, hstatus]
      · intro h; exact absurd rfl h
      · simp [ResponseWriter.Write, ResponseWriter.WriteHeader, ResponseWriter.Set,
          ResponseWriter.statusCode, hstatus]
    | some e =>
      rw [herr] at hupd
      have h500 : (http.Error w (str "Failed to update state")
          http.StatusInternalServerError).statusCode = 500 := Error_status _ _ _ hstatus
      refine ⟨_, _, some e,
        http.Error w (str "Failed to update state") http.StatusInternalServerError, hupd, ?_, ?_,
        ?_, ?_⟩
      · simp only [UpdatePlaybackState, hne, if_false, hupd]
      · intro h; exact absurd h (by simp)
      · intro _; exact h500
      · rw [h500]; simp

/-- Witness for `UpdatePlaybackState_status`: the empty id is answered 400 and changes
nothing; the id `E1` is answered 200 when the write succeeds and 500 when creating
the file fails. -/
theorem UpdatePlaybackState_status_witness :
    (∃ r, UpdatePlaybackState WriteFault.none 100 emptyDisk
          ⟨str "data/state.json", ⟨str "E1", 3, 50⟩, RWMutex.free⟩ ResponseWriter.fresh
          (.ok ⟨[], 5⟩)
        = Call.returns (⟨str "data/state.json", ⟨str "E1", 3, 50⟩, RWMutex.free⟩, emptyDisk, r)
      ∧ r.statusCode = 400)
    ∧ (∃ s2 disk2 r, UpdatePlaybackState WriteFault.none 100 emptyDisk
          ⟨str "data/state.json", ServerState.zero, RWMutex.free⟩ ResponseWriter.fresh
          (.ok ⟨str "E1", 5⟩) = Call.returns (s2, disk2, r)
        ∧ r.statusCode = 200 ∧ r.body = successBody)
    ∧ (∃ s2 disk2 r, UpdatePlaybackState (WriteFault.create (str "read-only")) 100 emptyDisk
          ⟨str "data/state.json", ServerState.zero, RWMutex.free⟩ ResponseWriter.fresh
          (.ok ⟨str "E1", 5⟩) = Call.returns (s2, disk2, r)
        ∧ r.statusCode = 500) :=
  ⟨(UpdatePlaybackState_status WriteFault.none 100 emptyDisk
      ⟨str "data/state.json", ⟨str "E1", 3, 50⟩, RWMutex.free⟩ ResponseWriter.fresh ⟨[], 5⟩
      rfl rfl).1 rfl,
    ⟨_, _, _, rfl, by decide, by decide⟩,
    ⟨_, _, _, rfl, by decide⟩⟩

/-! ## Lemmas: the order of strings and the sort -/

theorem strLess_asymm (a b : GoString) (h : strLess a b = true) : strLess b a = false := by
  induction a generalizing b with
  | nil =>
    cases b with
    | nil => simp [strLess] at h
    | cons y ys => simp [strLess]
  | cons x xs ih =>
    cases b with
    | nil => simp [strLess] at h
    | cons y ys =>
      simp only [strLess, Bool.or_eq_true, Bool.and_eq_true, decide_eq_true_eq] at h
      simp only [strLess, Bool.or_eq_false_iff, Bool.and_eq_false_iff, decide_eq_false_iff_not]
      rcases h with h | ⟨h1, h2⟩
      · exact ⟨by omega, Or.inl (by omega)⟩
      · exact ⟨by omega, Or.inr (ih ys h2)⟩

theorem strLess_trans (a b c : GoString) (hab : strLess a b = true)
    (hbc : strLess b c = true) : strLess a c = true := by
  induction a generalizing b c with
  | nil =>
    cases b with
    | nil => simp [strLess] at hab
    | cons y ys =>
      cases c with
      | nil => simp [strLess] at hbc
      | cons z zs => simp [strLess]
  | cons x xs ih =>
    cases b with
    | nil => simp [strLess] at hab
    | cons y ys =>
      cases c with
      | nil => simp [strLess] at hbc
      | cons z zs =>
        simp only [strLess, Bool.or_eq_true, Bool.and_eq_true, decide_eq_true_eq] at hab hbc ⊢
        rcases hab with h1 | ⟨h1, h2⟩
        · rcases hbc with h3 | ⟨h3, _⟩
          · exact Or.inl (by omega)
          · exact Or.inl (by omega)
        · rcases hbc with h3 | ⟨h3, h4⟩
          · exact Or.inl (by omega)
          · exact Or.inr ⟨by omega, ih ys zs h2 h4⟩

theorem strLess_antisymm (a b : GoString) (hab : strLess a b = false)
    (hba : strLess b a = false) : a = b := by
  induction a generalizing b with
  | nil =>
    cases b with
    | nil => rfl
    | cons y ys => simp [strLess] at hab
  | cons x xs ih =>
    cases b with
    | nil => simp [strLess] at hba
    | cons y ys =>
      simp only [strLess, Bool.or_eq_false_iff, Bool.and_eq_false_iff,
        decide_eq_false_iff_not] at hab hba
      have hxy : x = y := by omega
      subst hxy
      have h1 : strLess xs ys = false := by
        rcases hab.2 with h | h
        · exact absurd rfl h
        · exact h
      have h2 : strLess ys xs = false := by
        rcases hba.2 with h | h
        · exact absurd rfl h
        · exact h
      rw [ih ys h1 h2]

theorem insertByID_perm (x : EpisodeInfo) (l : List EpisodeInfo) :
    (insertByID x l).Perm (x :: l) := by
  induction l with
  | nil => exact List.Perm.refl _
  | cons y ys ih =>
    unfold insertByID
    split
    · exact List.Perm.refl _
    · exact (List.Perm.cons y ih).trans (List.Perm.swap x y ys)

theorem insertByID_sorted (x : EpisodeInfo) (l : List EpisodeInfo) (h : SortedByID l) :
    SortedByID (insertByID x l) := by
  induction l with
  | nil => simp [insertByID, SortedByID]
  | cons y ys ih =>
    unfold SortedByID at h ih ⊢
    have hy := List.pairwise_cons.1 h
    unfold insertByID
    split
    · rename_i hlt
      refine List.pairwise_cons.2 ⟨?_, h⟩
      intro z hz
      rcases List.mem_cons.1 hz with rfl | hz2
      · exact strLess_asymm _ _ hlt
      · have hyz := hy.1 z hz2
        cases hzx : strLess z.ID x.ID with
        | false => rfl
        | true =>
          rw [strLess_trans _ _ _ hzx hlt] at hyz
          exact absurd hyz (by simp)
    · rename_i hnlt
      refine List.pairwise_cons.2 ⟨?_, ih hy.2⟩
      intro z hz
      rcases List.mem_cons.1 ((insertByID_perm x ys).subset hz) with rfl | hz2
      · simpa using hnlt
      · exact hy.1 z hz2

theorem foldl_insertByID (l acc : List EpisodeInfo) (hacc : SortedByID acc) :
    SortedByID (l.foldl (fun sorted x => insertByID x sorted) acc)
    ∧ (l.foldl (fun sorted x => insertByID x sorted) acc).Perm (acc ++ l) := by
  induction l generalizing acc with
  | nil => simpa using hacc
  | cons x xs ih =>
    obtain ⟨hs, hp⟩ := ih (insertByID x acc) (insertByID_sorted x acc hacc)
    refine ⟨hs, hp.trans ?_⟩
    have h1 : (insertByID x acc ++ xs).Perm ((x :: acc) ++ xs) :=
      List.Perm.append_right xs (insertByID_perm x acc)
    refine h1.trans ?_
    simp only [List.cons_append]
    exact List.perm_middle.symm

theorem sortByID_sorted (l : List EpisodeInfo) : SortedByID (sortByID l) :=
  (foldl_insertByID l [] (by simp [SortedByID])).1

theorem sortByID_perm (l : List EpisodeInfo) : (sortByID l).Perm l := by
  simpa using (foldl_insertByID l [] (by simp [SortedByID])).2

/-! ## Lemmas: the scan of the sidecar files -/

theorem collectEpisodes_eq (world : World) (files : List GoString) (acc : List EpisodeInfo) :
    collectEpisodes world files acc = acc ++ decodableEpisodes world files := by
  induction files generalizing acc with
  | nil => simp [collectEpisodes, decodableEpisodes]
  | cons f fs ih =>
    unfold collectEpisodes
    cases hr : world.readEpisodes f with
    | error e =>
      simp only [ih]
      simp [decodableEpisodes, hr]
    | ok episodes =>
      simp only [ih]
      simp [decodableEpisodes, hr]

theorem findWalk_json (world : World) (entries : List WalkEntry) (files : List GoString)
    (hwalk : ∀ e ∈ entries, e.err = none)
    (hmatch : ∀ e ∈ entries,
      ∃ b, world.pathMatch (world.trimSpace (str "*.json")) e.name = .ok b) :
    utils.findWalk world [str "*.json"] entries files
      = (files ++ (entries.filter (fun e => !e.isDir && isJSONName world e.name)).map
          (fun e => e.path), none) := by
  induction entries generalizing files with
  | nil => simp [utils.findWalk]
  | cons e es ih =>
    have he := hwalk e (by simp)
    obtain ⟨b, hb⟩ := hmatch e (by simp)
    have hes := fun files => ih files (fun x hx => hwalk x (by simp [hx]))
      (fun x hx => hmatch x (by simp [hx]))
    unfold utils.findWalk
    rw [he]
    cases hd : e.isDir with
    | true =>
      simp only [Bool.not_true, Bool.false_eq_true, if_false, hes]
      simp [List.filter_cons, hd]
    | false =>
      cases b with
      | true =>
        simp only [Bool.not_false, if_true, utils.matchAny, hb, hes]
        simp [List.filter_cons, hd, isJSONName, hb]
      | false =>
        simp only [Bool.not_false, if_true, utils.matchAny, hb, hes]
        simp [List.filter_cons, hd, isJSONName, hb]

theorem FindFiles_json (world : World) (root : GoString)
    (hwalk : ∀ e ∈ world.walk root, e.err = none)
    (hmatch : ∀ e ∈ world.walk root,
      ∃ b, world.pathMatch (world.trimSpace (str "*.json")) e.name = .ok b) :
    utils.FindFiles world root (str "*.json") = (sidecarFiles world root, none) := by
  have hsplit : strings.Split (str "*.json") 44 = [str "*.json"] := by decide
  unfold utils.FindFiles
  rw [hsplit, findWalk_json world _ [] hwalk hmatch]
  simp [sidecarFiles]

/-- C15: when the seasons root is missing `GetAllEpisodes` returns the empty list
without error. When it exists and the walk reports no error, `GetAllEpisodes`
returns without error a list that is sorted ascending by id and is a permutation
of the concatenation of the lists of exactly the decodable sidecar files: files
that cannot be read or decoded contribute nothing and do not end the scan, and no
record is dropped or merged with another. -/
theorem GetAllEpisodes_sorted_perm (world : World) (cfg : Config) :
    (utils.FileExists world.notExist cfg.SeasonsDir = false → GetAllEpisodes world cfg = .ok [])
    ∧ (utils.FileExists world.notExist cfg.SeasonsDir = true →
        (∀ e ∈ world.walk cfg.SeasonsDir, e.err = none) →
        (∀ e ∈ world.walk cfg.SeasonsDir,
          ∃ b, world.pathMatch (world.trimSpace (str "*.json")) e.name = .ok b) →
        ∃ episodes, GetAllEpisodes world cfg = .ok episodes
          ∧ SortedByID episodes
          ∧ episodes.Perm (decodableEpisodes world (sidecarFiles world cfg.SeasonsDir))) := by
  constructor
  · intro hmissing
    simp [GetAllEpisodes, hmissing]
  · intro hexists hwalk hmatch
    refine ⟨sortByID (decodableEpisodes world (sidecarFiles world cfg.SeasonsDir)), ?_,
      sortByID_sorted _, sortByID_perm _⟩
    unfold GetAllEpisodes
    rw [FindFiles_json world cfg.SeasonsDir hwalk hmatch]
    simp [hexists, collectEpisodes_eq]

/-- Witness for `GetAllEpisodes_sorted_perm`: the library of `duplicateWorld`, whose two
sidecar files hold three records, two of them with the same id. -/
theorem GetAllEpisodes_sorted_perm_witness :
    ∃ episodes, GetAllEpisodes duplicateWorld sampleConfig = .ok episodes
      ∧ SortedByID episodes
      ∧ episodes.Perm
          (decodableEpisodes duplicateWorld (sidecarFiles duplicateWorld sampleConfig.SeasonsDir)) :=
  (GetAllEpisodes_sorted_perm duplicateWorld sampleConfig).2 (by decide) (by decide)
    (by
      intro e he
      exact ⟨_, rfl⟩)

theorem ids_eq_of_sorted_perm (l1 l2 : List EpisodeInfo) (h1 : SortedByID l1)
    (h2 : SortedByID l2) (hp : l1.Perm l2) :
    l1.map (fun e => e.ID) = l2.map (fun e => e.ID) := by
  haveI : IsAntisymm GoString (fun a b => strLess b a = false) :=
    ⟨fun a b hab hba => strLess_antisymm a b hba hab⟩
  have s1 : List.Sorted (fun a b : GoString => strLess b a = false)
      (l1.map (fun e => e.ID)) := List.pairwise_map.2 h1
  have s2 : List.Sorted (fun a b : GoString => strLess b a = false)
      (l2.map (fun e => e.ID)) := List.pairwise_map.2 h2
  exact List.eq_of_perm_of_sorted (hp.map _) s1 s2

theorem eq_of_perm_of_ids (l1 l2 : List EpisodeInfo) (hp : l1.Perm l2)
    (hids : l1.map (fun e => e.ID) = l2.map (fun e => e.ID))
    (hnodup : (l1.map (fun e => e.ID)).Nodup) : l1 = l2 := by
  induction l1 generalizing l2 with
  | nil => exact (List.perm_nil.1 hp.symm).symm
  | cons a as ih =>
    cases l2 with
    | nil => simp at hids
    | cons b bs =>
      simp only [List.map_cons, List.cons.injEq] at hids
      have hnd := List.nodup_cons.1 hnodup
      have hb : b ∈ a :: as := hp.symm.subset (by simp)
      have hab : a = b := by
        rcases List.mem_cons.1 hb with h | h
        · exact h.symm
        · exfalso
          apply hnd.1
          have hmem : (fun e : EpisodeInfo => e.ID) b ∈ List.map (fun e => e.ID) as :=
            List.mem_map_of_mem _ h
          have hid : (fun e : EpisodeInfo => e.ID) a = (fun e : EpisodeInfo => e.ID) b := hids.1
          rw [hid]
          exact hmem
      subst hab
      rw [ih bs (List.Perm.cons_inv hp) hids.2 hnd.2]

theorem GetAllEpisodes_found (world : World) (cfg : Config) (files : List GoString)
    (hexists : utils.FileExists world.notExist cfg.SeasonsDir = true)
    (hfound : utils.FindFiles world cfg.SeasonsDir (str "*.json") = (files, none)) :
    GetAllEpisodes world cfg = .ok (sortByID (decodableEpisodes world files)) := by
  unfold GetAllEpisodes
  rw [hfound]
  simp [hexists, collectEpisodes_eq]

/-- C16, refuted as stated: two records share the id `Show_S01E01` and differ in their
title. When `a.json` holds the title `One` and `b.json` the title `One (remaster)`
the list returned starts with `One`; when the contents of the two files are
exchanged, or when `b.json` is visited before `a.json`, it starts with
`One (remaster)`. -/
theorem GetAllEpisodes_scan_order_shows :
    GetAllEpisodes (twoFileWorld (str "One") (str "One (remaster)")) sampleConfig
      = .ok [⟨str "Show_S01E01", str "One", [], []⟩,
          ⟨str "Show_S01E01", str "One (remaster)", [], []⟩]
    ∧ GetAllEpisodes (twoFileWorld (str "One (remaster)") (str "One")) sampleConfig
      = .ok [⟨str "Show_S01E01", str "One (remaster)", [], []⟩,
          ⟨str "Show_S01E01", str "One", [], []⟩]
    ∧ GetAllEpisodes (twoFileWorldReversed (str "One") (str "One (remaster)")) sampleConfig
      = .ok [⟨str "Show_S01E01", str "One (remaster)", [], []⟩,
          ⟨str "Show_S01E01", str "One", [], []⟩]
    ∧ ([⟨str "Show_S01E01", str "One", [], []⟩,
          ⟨str "Show_S01E01", str "One (remaster)", [], []⟩] : List EpisodeInfo)
        ≠ [⟨str "Show_S01E01", str "One (remaster)", [], []⟩,
          ⟨str "Show_S01E01", str "One", [], []⟩] := by
  refine ⟨by rfl, by rfl, by rfl, by decide⟩

/-- C16, amended: for two scans that visit the same sidecar files in two orders, the
two lists that `GetAllEpisodes` returns hold the same records (each is a
permutation of the other) and the same sequence of ids; and when no two records
share an id the two lists are equal, record for record and position for position. -/
theorem GetAllEpisodes_scan_order (first second : World) (cfg : Config)
    (files1 files2 : List GoString)
    (hexists1 : utils.FileExists first.notExist cfg.SeasonsDir = true)
    (hexists2 : utils.FileExists second.notExist cfg.SeasonsDir = true)
    (hfound1 : utils.FindFiles first cfg.SeasonsDir (str "*.json") = (files1, none))
    (hfound2 : utils.FindFiles second cfg.SeasonsDir (str "*.json") = (files2, none))
    (hsame : first.readEpisodes = second.readEpisodes) (horder : files1.Perm files2) :
    ∃ episodes1 episodes2,
      GetAllEpisodes first cfg = .ok episodes1
      ∧ GetAllEpisodes second cfg = .ok episodes2
      ∧ episodes1.Perm episodes2
      ∧ episodes1.map (fun e => e.ID) = episodes2.map (fun e => e.ID)
      ∧ ((episodes1.map (fun e => e.ID)).Nodup → episodes1 = episodes2) := by
  have hconcat : (decodableEpisodes first files1).Perm (decodableEpisodes second files2) := by
    unfold decodableEpisodes
    rw [hsame]
    exact List.Perm.flatMap_right _ horder
  have hperm : (sortByID (decodableEpisodes first files1)).Perm
      (sortByID (decodableEpisodes second files2)) :=
    ((sortByID_perm _).trans hconcat).trans (sortByID_perm _).symm
  have hids := ids_eq_of_sorted_perm _ _ (sortByID_sorted (decodableEpisodes first files1))
    (sortByID_sorted (decodableEpisodes second files2)) hperm
  exact ⟨_, _, GetAllEpisodes_found first cfg files1 hexists1 hfound1,
    GetAllEpisodes_found second cfg files2 hexists2 hfound2, hperm, hids,
    eq_of_perm_of_ids _ _ hperm hids⟩

/-- Witness for `GetAllEpisodes_scan_order`: the two-file library, visited `a.json` first
and visited `b.json` first. -/
theorem GetAllEpisodes_scan_order_witness :
    ∃ episodes1 episodes2,
      GetAllEpisodes (twoFileWorld (str "One") (str "One (remaster)")) sampleConfig
        = .ok episodes1
      ∧ GetAllEpisodes (twoFileWorldReversed (str "One") (str "One (remaster)")) sampleConfig
        = .ok episodes2
      ∧ episodes1.Perm episodes2
      ∧ episodes1.map (fun e => e.ID) = episodes2.map (fun e => e.ID)
      ∧ ((episodes1.map (fun e => e.ID)).Nodup → episodes1 = episodes2) :=
  GetAllEpisodes_scan_order (twoFileWorld (str "One") (str "One (remaster)"))
    (twoFileWorldReversed (str "One") (str "One (remaster)"))
    sampleConfig [str "media/shows/a.json", str "media/shows/b.json"]
    [str "media/shows/b.json", str "media/shows/a.json"] (by decide) (by decide) (by rfl)
    (by rfl) rfl (List.Perm.swap _ _ _)

/-! ## Lemmas: cleaned paths -/

theorem Clean_eq_render (path : GoString) :
    filepath.Clean path = renderPath (cleanRooted path) (cleanStack path) := by
  by_cases hp : path = []
  · subst hp
    decide
  · simp only [filepath.Clean, hp, if_false, renderPath, cleanStack, cleanRooted]

theorem Split_append (a b : GoString) (sep : Nat) :
    strings.Split (a ++ sep :: b) sep = strings.Split a sep ++ strings.Split b sep := by
  induction a with
  | nil => simp [strings.Split]
  | cons c cs ih =>
    by_cases hc : c = sep
    · subst hc
      simp [strings.Split, ih]
    · simp only [List.cons_append, strings.Split, hc, if_false]
      have ih2 : strings.Split (cs.append (sep :: b)) sep
          = strings.Split cs sep ++ strings.Split b sep := ih
      rw [ih2]
      cases hs : strings.Split cs sep with
      | nil => exact absurd hs (Split_ne_nil cs sep)
      | cons p ps => simp

theorem Split_components (s : GoString) (sep : Nat) :
    ∀ c ∈ strings.Split s sep, sep ∉ c := by
  induction s with
  | nil => simp [strings.Split]
  | cons x xs ih =>
    intro c hc
    unfold strings.Split at hc
    by_cases hx : x = sep
    · rw [if_pos hx] at hc
      rcases List.mem_cons.1 hc with rfl | h
      · simp
      · exact ih c h
    · rw [if_neg hx] at hc
      cases hs : strings.Split xs sep with
      | nil => exact absurd hs (Split_ne_nil xs sep)
      | cons p ps =>
        rw [hs] at hc ih
        simp only at hc
        rcases List.mem_cons.1 hc with rfl | h
        · have hp := ih p (by simp)
          intro hmem
          rcases List.mem_cons.1 hmem with h1 | h1
          · exact hx h1.symm
          · exact hp h1
        · exact ih c (by simp [h])

theorem GoodStack_tail (r : Bool) (c : GoString) (s : List GoString)
    (h : GoodStack r (c :: s)) : GoodStack r s := h.2.2.2.2

theorem cleanStep_good (r : Bool) (s : List GoString) (c : GoString)
    (hs : GoodStack r s) (hc : 47 ∉ c) : GoodStack r (filepath.cleanStep r s c) := by
  unfold filepath.cleanStep
  by_cases h1 : c = [] ∨ c = str "."
  · rw [if_pos h1]; exact hs
  · rw [if_neg h1]
    have hne : c ≠ [] := fun e => h1 (Or.inl e)
    have hdot : c ≠ str "." := fun e => h1 (Or.inr e)
    by_cases h2 : c = str ".."
    · rw [if_pos h2]
      cases s with
      | nil =>
        cases r with
        | true => simp [GoodStack]
        | false =>
          simp only [Bool.false_eq_true, if_false]
          exact ⟨hne, hdot, hc, fun _ => ⟨rfl, by simp⟩, trivial⟩
      | cons top rest =>
        simp only
        by_cases h3 : top = str ".."
        · rw [if_pos h3]
          have htop := hs.2.2.2.1 h3
          refine ⟨hne, hdot, hc, fun _ => ⟨htop.1, ?_⟩, hs⟩
          intro x hx
          rcases List.mem_cons.1 hx with rfl | hx2
          · exact h3
          · exact htop.2 x hx2
        · rw [if_neg h3]
          exact GoodStack_tail r top rest hs
    · rw [if_neg h2]
      exact ⟨hne, hdot, hc, fun e => absurd e h2, hs⟩

theorem foldl_cleanStep_good (r : Bool) (comps : List GoString) (s : List GoString)
    (hs : GoodStack r s) (hc : ∀ c ∈ comps, 47 ∉ c) :
    GoodStack r (comps.foldl (filepath.cleanStep r) s) := by
  induction comps generalizing s with
  | nil => exact hs
  | cons c cs ih =>
    exact ih _ (cleanStep_good r s c hs (hc c (by simp))) (fun x hx => hc x (by simp [hx]))

theorem cleanStack_good (path : GoString) : GoodStack (cleanRooted path) (cleanStack path) :=
  foldl_cleanStep_good _ _ [] trivial (Split_components path 47)

theorem cleanStep_push (r : Bool) (s : List GoString) (c : GoString)
    (h : GoodStack r (c :: s)) : filepath.cleanStep r s c = c :: s := by
  obtain ⟨hne, hdot, _, hdd, _⟩ := h
  unfold filepath.cleanStep
  have h1 : ¬ (c = [] ∨ c = str ".") := fun e => e.elim hne hdot
  rw [if_neg h1]
  by_cases h2 : c = str ".."
  · rw [if_pos h2]
    obtain ⟨hr, hall⟩ := hdd h2
    cases s with
    | nil => simp [hr]
    | cons top rest =>
      have htop := hall top (by simp)
      simp [htop, h2]
  · rw [if_neg h2]

theorem foldl_cleanStep_rebuild (r : Bool) (t s : List GoString)
    (h : GoodStack r (t ++ s)) :
    t.reverse.foldl (filepath.cleanStep r) s = t ++ s := by
  induction t with
  | nil => rfl
  | cons c cs ih =>
    rw [List.reverse_cons, List.foldl_append, ih (GoodStack_tail r c (cs ++ s) h)]
    exact cleanStep_push r (cs ++ s) c h

theorem str_slash : str "/" = [47] := rfl

theorem intercalate_one (c : GoString) : (str "/").intercalate [c] = c := by
  simp [List.intercalate, List.intersperse]

theorem intercalate_cons_cons (c d : GoString) (rest : List GoString) :
    (str "/").intercalate (c :: d :: rest) = c ++ 47 :: (str "/").intercalate (d :: rest) := by
  simp [List.intercalate, List.intersperse, str_slash]

theorem intercalate_snoc (xs : List GoString) (y : GoString) (hne : xs ≠ []) :
    (str "/").intercalate (xs ++ [y]) = (str "/").intercalate xs ++ 47 :: y := by
  induction xs with
  | nil => exact absurd rfl hne
  | cons c cs ih =>
    cases cs with
    | nil => simp [intercalate_cons_cons, intercalate_one]
    | cons d ds =>
      have h := ih (by simp)
      simp only [List.cons_append] at h ⊢
      rw [intercalate_cons_cons, h, intercalate_cons_cons]
      simp

theorem Split_intercalate (comps : List GoString) (hne : comps ≠ [])
    (hc : ∀ c ∈ comps, 47 ∉ c) :
    strings.Split ((str "/").intercalate comps) 47 = comps := by
  induction comps with
  | nil => exact absurd rfl hne
  | cons c cs ih =>
    cases cs with
    | nil =>
      rw [intercalate_one]
      exact Split_of_not_mem c 47 (hc c (by simp))
    | cons d ds =>
      rw [intercalate_cons_cons, Split_append_sep _ _ _ (hc c (by simp)),
        ih (by simp) (fun x hx => hc x (by simp [hx]))]

theorem intercalate_head (comps : List GoString) (hne : comps ≠ [])
    (hc : ∀ c ∈ comps, c ≠ [] ∧ 47 ∉ c) :
    (str "/").intercalate comps ≠ []
    ∧ ((str "/").intercalate comps).head? ≠ some 47 := by
  cases comps with
  | nil => exact absurd rfl hne
  | cons c cs =>
    obtain ⟨hcne, hc47⟩ := hc c (by simp)
    cases c with
    | nil => exact absurd rfl hcne
    | cons x xs =>
      have hx : x ≠ 47 := fun e => hc47 (by simp [e])
      cases cs with
      | nil =>
        rw [intercalate_one]
        exact ⟨by simp, by simp [hx]⟩
      | cons d ds =>
        rw [intercalate_cons_cons]
        exact ⟨by simp, by simp [hx]⟩

theorem GoodStack_mem (r : Bool) (s : List GoString) (h : GoodStack r s) :
    ∀ c ∈ s, c ≠ [] ∧ 47 ∉ c := by
  induction s with
  | nil => simp
  | cons x xs ih =>
    intro c hc
    rcases List.mem_cons.1 hc with rfl | hc2
    · exact ⟨h.1, h.2.2.1⟩
    · exact ih (GoodStack_tail r x xs h) c hc2

/-- The rendering of a non-empty stack: the root slash, if any, then the components. -/
theorem renderPath_nonempty (r : Bool) (s : List GoString) (hne : s ≠ [])
    (h : GoodStack r s) :
    renderPath r s = (if r then [47] else []) ++ (str "/").intercalate s.reverse := by
  have hb := (intercalate_head s.reverse (by simpa using hne)
    (fun c hc => GoodStack_mem r s h c (by simpa using hc))).1
  unfold renderPath
  cases r with
  | true => simp
  | false => simp [hb]

theorem cleanStack_render (r : Bool) (s : List GoString) (h : GoodStack r s) :
    cleanRooted (renderPath r s) = r ∧ cleanStack (renderPath r s) = s := by
  by_cases hne : s = []
  · subst hne
    cases r with
    | true => exact ⟨by decide, by decide⟩
    | false => exact ⟨by decide, by decide⟩
  · have hmem : ∀ c ∈ s.reverse, c ≠ [] ∧ 47 ∉ c :=
      fun c hc => GoodStack_mem r s h c (by simpa using hc)
    have hrev : s.reverse ≠ [] := by simpa using hne
    obtain ⟨hb, hhead⟩ := intercalate_head s.reverse hrev hmem
    have hsplit := Split_intercalate s.reverse hrev (fun c hc => (hmem c hc).2)
    have hfold := foldl_cleanStep_rebuild r s [] (by simpa using h)
    rw [renderPath_nonempty r s hne h]
    cases r with
    | true =>
      refine ⟨by simp [cleanRooted], ?_⟩
      have hroot : cleanRooted (47 :: (str "/").intercalate s.reverse) = true := by
        simp [cleanRooted]
      simp only [if_true, List.singleton_append, cleanStack, hroot]
      have hs2 : strings.Split (47 :: (str "/").intercalate s.reverse) 47
          = [] :: s.reverse := by
        simp [strings.Split, hsplit]
      rw [hs2, List.foldl_cons]
      have h0 : filepath.cleanStep true [] [] = [] := by simp [filepath.cleanStep]
      rw [h0]
      simpa using hfold
    | false =>
      have hroot : cleanRooted ((str "/").intercalate s.reverse) = false := by
        simp only [cleanRooted]
        simpa using hhead
      refine ⟨by simpa using hroot, ?_⟩
      simp only [Bool.false_eq_true, if_false, List.nil_append, cleanStack, hroot, hsplit]
      simpa using hfold

theorem GoodStack_push (r : Bool) (s : List GoString) (name : GoString)
    (h : GoodStack r s) (hn : PlainName name) : GoodStack r (name :: s) :=
  ⟨hn.1, hn.2.2.1, hn.2.1, fun e => absurd e hn.2.2.2, h⟩

theorem Join_plain (d name : GoString) (hn : PlainName name) :
    filepath.Join d name = renderPath (cleanRooted d) (name :: cleanStack d) := by
  have hpush : ∀ r s, GoodStack r s → filepath.cleanStep r s name = name :: s :=
    fun r s hs => cleanStep_push r s name (GoodStack_push r s name hs hn)
  by_cases hd : d = []
  · subst hd
    have hroot : cleanRooted name = false := by
      obtain ⟨hne, h47, _, _⟩ := hn
      cases name with
      | nil => exact absurd rfl hne
      | cons x xs =>
        have hx : x ≠ 47 := fun e => h47 (by simp [e])
        simp [cleanRooted, hx]
    have hstack : cleanStack name = [name] := by
      simp only [cleanStack, Split_of_not_mem name 47 hn.2.1, List.foldl_cons, List.foldl_nil]
      exact hpush _ [] trivial
    have hj : filepath.Join [] name = filepath.Clean name := by
      simp [filepath.Join, hn.1]
    rw [hj, Clean_eq_render, hroot, hstack]
    rfl
  · have hj : filepath.Join d name = filepath.Clean (d ++ 47 :: name) := by
      simp [filepath.Join, hd, str_slash]
    have hroot : cleanRooted (d ++ 47 :: name) = cleanRooted d := by
      cases d with
      | nil => exact absurd rfl hd
      | cons x xs => simp [cleanRooted]
    have hstack : cleanStack (d ++ 47 :: name) = name :: cleanStack d := by
      simp only [cleanStack, hroot, Split_append, Split_of_not_mem name 47 hn.2.1,
        List.foldl_append, List.foldl_cons, List.foldl_nil]
      exact hpush _ _ (cleanStack_good d)
    rw [hj, Clean_eq_render, hroot, hstack]

theorem dropWhile_last_slash (p name : GoString) (h47 : 47 ∉ name) :
    ((p ++ 47 :: name).reverse.dropWhile (fun c => c ≠ 47)).reverse = p ++ [47] := by
  have hrev : (p ++ 47 :: name).reverse = name.reverse ++ 47 :: p.reverse := by simp
  rw [hrev]
  have hdrop : ∀ (l rest : GoString), (∀ c ∈ l, c ≠ 47) →
      (l ++ 47 :: rest).dropWhile (fun c => c ≠ 47) = 47 :: rest := by
    intro l rest hl
    induction l with
    | nil => simp [List.dropWhile]
    | cons x xs ih =>
      have hx := hl x (by simp)
      simp only [List.cons_append, List.dropWhile_cons, hx, ne_eq, not_false_eq_true,
        decide_True, if_true]
      exact ih (fun c hc => hl c (by simp [hc]))
  rw [hdrop name.reverse p.reverse (fun c hc e => h47 (by
    have := List.mem_reverse.1 hc
    rw [e] at this
    exact this))]
  simp

theorem dropWhile_no_slash (name : GoString) (h47 : 47 ∉ name) :
    (name.reverse.dropWhile (fun c => c ≠ 47)).reverse = [] := by
  have h : ∀ l : GoString, (∀ c ∈ l, c ≠ 47) → l.dropWhile (fun c => c ≠ 47) = [] := by
    intro l hl
    induction l with
    | nil => rfl
    | cons x xs ih =>
      have hx := hl x (by simp)
      simp only [List.dropWhile_cons, hx, ne_eq, not_false_eq_true, decide_True, if_true]
      exact ih (fun c hc => hl c (by simp [hc]))
  rw [h name.reverse (fun c hc e => h47 (by
    have := List.mem_reverse.1 hc
    rw [e] at this
    exact this))]
  rfl

theorem renderPath_ne_nil (r : Bool) (s : List GoString) : renderPath r s ≠ [] := by
  unfold renderPath
  simp only
  by_cases h : (if r = true then 47 :: (str "/").intercalate s.reverse
      else (str "/").intercalate s.reverse) = []
  · rw [if_pos h]
    decide
  · rw [if_neg h]
    exact h

theorem Dir_render (r : Bool) (s : List GoString) (name : GoString)
    (h : GoodStack r s) (hn : PlainName name) :
    filepath.Dir (renderPath r (name :: s)) = renderPath r s := by
  have hgood := GoodStack_push r s name h hn
  rw [renderPath_nonempty r (name :: s) (by simp) hgood]
  by_cases hs : s = []
  · subst hs
    simp only [List.reverse_cons, List.reverse_nil, List.nil_append, intercalate_one]
    cases r with
    | true =>
      have e : (if true = true then [47] else []) ++ name = [] ++ 47 :: name := by simp
      rw [e]
      unfold filepath.Dir
      rw [dropWhile_last_slash [] name hn.2.1]
      decide
    | false =>
      simp only [Bool.false_eq_true, if_false, List.nil_append]
      unfold filepath.Dir
      rw [dropWhile_no_slash name hn.2.1]
      decide
  · have hrev : s.reverse ≠ [] := by simpa using hs
    have hpath : (if r then [47] else []) ++ (str "/").intercalate (name :: s).reverse
        = renderPath r s ++ 47 :: name := by
      rw [List.reverse_cons, intercalate_snoc _ _ hrev, renderPath_nonempty r s hs h]
      simp
    rw [hpath]
    unfold filepath.Dir
    rw [dropWhile_last_slash _ name hn.2.1, Clean_eq_render]
    obtain ⟨hroot, hstack⟩ := cleanStack_render r s h
    have hne : renderPath r s ≠ [] := renderPath_ne_nil r s
    have hroot2 : cleanRooted (renderPath r s ++ [47]) = r := by
      have hsame : cleanRooted (renderPath r s ++ [47]) = cleanRooted (renderPath r s) := by
        cases hp : renderPath r s with
        | nil => exact absurd hp hne
        | cons x xs => simp [cleanRooted]
      rw [hsame, hroot]
    have hstack2 : cleanStack (renderPath r s ++ [47]) = s := by
      simp only [cleanStack, hroot2, Split_append]
      have hnil : strings.Split [] 47 = [[]] := rfl
      rw [hnil, List.foldl_append, List.foldl_cons, List.foldl_nil]
      have hfold : (strings.Split (renderPath r s) 47).foldl (filepath.cleanStep r) [] = s := by
        have := hstack
        simp only [cleanStack, hroot] at this
        exact this
      rw [hfold]
      simp [filepath.cleanStep]
    rw [hroot2, hstack2]

theorem Base_render (r : Bool) (s : List GoString) (name : GoString)
    (h : GoodStack r s) (hn : PlainName name) :
    filepath.Base (renderPath r (name :: s)) = name := by
  have hgood := GoodStack_push r s name h hn
  obtain ⟨p, hp⟩ : ∃ p, renderPath r (name :: s) = name ∨ renderPath r (name :: s) = p ++ 47 :: name := by
    rw [renderPath_nonempty r (name :: s) (by simp) hgood]
    by_cases hs : s = []
    · subst hs
      simp only [List.reverse_cons, List.reverse_nil, List.nil_append, intercalate_one]
      cases r with
      | true => exact ⟨[], Or.inr (by simp)⟩
      | false => exact ⟨[], Or.inl (by simp)⟩
    · have hrev : s.reverse ≠ [] := by simpa using hs
      refine ⟨(if r then [47] else []) ++ (str "/").intercalate s.reverse, Or.inr ?_⟩
      rw [List.reverse_cons, intercalate_snoc _ _ hrev]
      simp
  obtain ⟨hne, h47, _, _⟩ := hn
  have hlast : ∀ c ∈ name.reverse, c ≠ 47 := fun c hc e => h47 (by
    have := List.mem_reverse.1 hc
    rw [e] at this
    exact this)
  have hrevne : name.reverse ≠ [] := by simpa using hne
  have hdrop : ∀ rest : GoString,
      (name.reverse ++ rest).dropWhile (fun c => c = 47) = name.reverse ++ rest := by
    intro rest
    cases hr : name.reverse with
    | nil => exact absurd hr hrevne
    | cons x xs =>
      have hx : x ≠ 47 := hlast x (by rw [hr]; simp)
      simp [List.dropWhile_cons, hx]
  have htake : ∀ (l rest : GoString), (∀ c ∈ l, c ≠ 47) → (rest = [] ∨ rest.head? = some 47) →
      (l ++ rest).takeWhile (fun c => c ≠ 47) = l := by
    intro l rest hl hrest
    induction l with
    | nil =>
      rcases hrest with rfl | hh
      · rfl
      · cases rest with
        | nil => rfl
        | cons y ys =>
          simp at hh
          simp [List.takeWhile, hh]
    | cons x xs ih =>
      have hx := hl x (by simp)
      simp only [List.cons_append, List.takeWhile_cons, hx, ne_eq, not_false_eq_true,
        decide_True, if_true]
      rw [ih (fun c hc => hl c (by simp [hc]))]
  rcases hp with hp | hp
  · rw [hp]
    unfold filepath.Base
    rw [if_neg hne]
    have e1 := hdrop []
    simp only [List.append_nil] at e1
    have e2 := htake name.reverse [] hlast (Or.inl rfl)
    simp only [List.append_nil] at e2
    simp only [e1, e2, List.reverse_reverse, hne, if_false]
  · rw [hp]
    unfold filepath.Base
    have hne2 : p ++ 47 :: name ≠ [] := by simp
    rw [if_neg hne2]
    have hrev : (p ++ 47 :: name).reverse = name.reverse ++ 47 :: p.reverse := by simp
    simp only [hrev, hdrop, htake name.reverse (47 :: p.reverse) hlast (Or.inr rfl),
      List.reverse_reverse, hne, if_false]

theorem PlainName_of_long (pre rest : GoString) (hlen : 3 ≤ pre.length) (hpre : 47 ∉ pre)
    (hrest : 47 ∉ rest) : PlainName (pre ++ rest) := by
  have hl : 3 ≤ (pre ++ rest).length := by simp; omega
  refine ⟨?_, ?_, ?_, ?_⟩
  · intro e; rw [e] at hl; simp at hl
  · simp [hpre, hrest]
  · intro e; rw [e] at hl; simp [str] at hl
  · intro e; rw [e] at hl; simp [str] at hl

theorem TrimPrefix_subset (s p : GoString) (c : Nat) (h : c ∈ strings.TrimPrefix s p) :
    c ∈ s := by
  unfold strings.TrimPrefix at h
  split at h
  · exact List.mem_of_mem_drop h
  · exact h

theorem firstExisting_mem (world : World) (dir name : GoString) (exts : List GoString)
    (p : GoString) (h : firstExisting world dir name exts = some p) :
    ∃ ext ∈ exts, p = filepath.Join dir (name ++ ext) := by
  induction exts with
  | nil => simp [firstExisting] at h
  | cons e es ih =>
    unfold firstExisting at h
    simp only at h
    split at h
    · exact ⟨e, by simp, by simpa using h.symm⟩
    · obtain ⟨ext, hmem, hp⟩ := ih h
      exact ⟨ext, by simp [hmem], hp⟩

/-- Every path `<root>/<dirName>/<fileName>` built by two `filepath.Join` calls from
plain names is a direct child of `<root>/<dirName>`, which is a direct child of the
cleaned root. -/
theorem Join_Join_confined (root dirName fileName : GoString) (hd : PlainName dirName)
    (hf : PlainName fileName) :
    filepath.Dir (filepath.Join root dirName) = filepath.Clean root
    ∧ filepath.Base (filepath.Join root dirName) = dirName
    ∧ filepath.Dir (filepath.Join (filepath.Join root dirName) fileName)
        = filepath.Join root dirName
    ∧ filepath.Base (filepath.Join (filepath.Join root dirName) fileName) = fileName := by
  have hgood := cleanStack_good root
  have hgood2 := GoodStack_push _ _ dirName hgood hd
  have hdir := Join_plain root dirName hd
  obtain ⟨hroot, hstack⟩ := cleanStack_render (cleanRooted root) (dirName :: cleanStack root) hgood2
  have hfile : filepath.Join (filepath.Join root dirName) fileName
      = renderPath (cleanRooted root) (fileName :: dirName :: cleanStack root) := by
    rw [Join_plain _ fileName hf, hdir, hroot, hstack]
  refine ⟨?_, ?_, ?_, ?_⟩
  · rw [hdir, Dir_render _ _ _ hgood hd, Clean_eq_render]
  · rw [hdir, Base_render _ _ _ hgood hd]
  · rw [hfile, Dir_render _ _ _ hgood2 hf, hdir]
  · rw [hfile, Base_render _ _ _ hgood2 hf]

/-- C17: for every seasons root and every episode id without `/`, either the id is
rejected by the format checks before any path is built, or the season directory
`<seasonsDir>/season-<XX>` is a direct child of the (cleaned) seasons root and every
path `<seasonsDir>/season-<XX>/episode-<num><ext>` that the exact-extension lookup
can probe, and so the path it returns, is a direct child of that directory. -/
theorem exact_lookup_confined (world : World) (cfg : Config) (episodeID : GoString)
    (hid : 47 ∉ episodeID) :
    (∃ msg, GetEpisodeVideoPath world cfg episodeID = .error (Failure.err msg)
      ∧ ((strings.TrimPrefix episodeID (str "Show_")).length < 6
        ∨ (strings.TrimPrefix episodeID (str "Show_"))[0]? ≠ some 83
        ∨ (strings.TrimPrefix episodeID (str "Show_"))[3]? ≠ some 69))
    ∨ ∃ s1 s2 num,
        strings.TrimPrefix episodeID (str "Show_") = 83 :: s1 :: s2 :: 69 :: num
        ∧ filepath.Dir (filepath.Join cfg.SeasonsDir (str "season-" ++ [s1, s2]))
            = filepath.Clean cfg.SeasonsDir
        ∧ filepath.Base (filepath.Join cfg.SeasonsDir (str "season-" ++ [s1, s2]))
            = str "season-" ++ [s1, s2]
        ∧ (∀ ext ∈ videoExtensions,
            filepath.Dir (filepath.Join
                (filepath.Join cfg.SeasonsDir (str "season-" ++ [s1, s2]))
                (str "episode-" ++ num ++ ext))
              = filepath.Join cfg.SeasonsDir (str "season-" ++ [s1, s2])
            ∧ filepath.Base (filepath.Join
                (filepath.Join cfg.SeasonsDir (str "season-" ++ [s1, s2]))
                (str "episode-" ++ num ++ ext))
              = str "episode-" ++ num ++ ext)
        ∧ (∀ path, firstExisting world
              (filepath.Join cfg.SeasonsDir (str "season-" ++ [s1, s2]))
              (str "episode-" ++ num) videoExtensions = some path →
            filepath.Dir path = filepath.Join cfg.SeasonsDir (str "season-" ++ [s1, s2])
            ∧ (utils.FileExists world.notExist
                  (filepath.Join cfg.SeasonsDir (str "season-" ++ [s1, s2])) = true →
                GetEpisodeVideoPath world cfg episodeID = .ok path)) := by
  rcases findEpisodeVideoFile_shape world cfg episodeID with
    ⟨msg, h, hwhy⟩ | ⟨s1, s2, num, ht, hn⟩
  · left
    exact ⟨msg, by rw [GetEpisodeVideoPath_eq]; exact h, hwhy⟩
  · right
    have hsub : ∀ c ∈ (83 :: s1 :: s2 :: 69 :: num : GoString), c ≠ 47 := by
      intro c hc e
      rw [← ht] at hc
      exact hid (e ▸ TrimPrefix_subset _ _ _ hc)
    have hs1 : s1 ≠ 47 := hsub s1 (by simp)
    have hs2 : s2 ≠ 47 := hsub s2 (by simp)
    have hnum : 47 ∉ num := fun hmem => hsub 47 (by simp [hmem]) rfl
    have hdirName : PlainName (str "season-" ++ [s1, s2]) :=
      PlainName_of_long _ _ (by decide) (by decide) (by simp [Ne.symm hs1, Ne.symm hs2])
    have hext : ∀ ext ∈ videoExtensions, (47 : Nat) ∉ ext := by decide
    have hfileName : ∀ ext ∈ videoExtensions, PlainName (str "episode-" ++ num ++ ext) := by
      intro ext hmem
      have := PlainName_of_long (str "episode-") (num ++ ext) (by decide) (by decide)
        (by simp [hnum, hext ext hmem])
      simpa using this
    have hall : ∀ ext ∈ videoExtensions,
        filepath.Dir (filepath.Join
            (filepath.Join cfg.SeasonsDir (str "season-" ++ [s1, s2]))
            (str "episode-" ++ num ++ ext))
          = filepath.Join cfg.SeasonsDir (str "season-" ++ [s1, s2])
        ∧ filepath.Base (filepath.Join
            (filepath.Join cfg.SeasonsDir (str "season-" ++ [s1, s2]))
            (str "episode-" ++ num ++ ext))
          = str "episode-" ++ num ++ ext := by
      intro ext hmem
      have h := Join_Join_confined cfg.SeasonsDir _ _ hdirName (hfileName ext hmem)
      exact ⟨h.2.2.1, h.2.2.2⟩
    have hseason := Join_Join_confined cfg.SeasonsDir _ _ hdirName
      (hfileName (str ".mp4") (by decide))
    refine ⟨s1, s2, num, ht, hseason.1, hseason.2.1, hall, ?_⟩
    intro path hfirst
    obtain ⟨ext, hmem, hp⟩ := firstExisting_mem world _ _ _ path hfirst
    refine ⟨by rw [hp]; exact (hall ext hmem).1, ?_⟩
    intro hdir
    rw [GetEpisodeVideoPath_eq,
      findEpisodeVideoFile_wellformed world cfg episodeID s1 s2 num ht hn]
    simp only [hdir, hfirst, Bool.not_true, Bool.false_eq_true, if_false]

/-- Witness for `exact_lookup_confined`: the id `Show_S01E02` in the sample library,
whose video `media/shows/season-01/episode-02.mkv` lies directly in
`media/shows/season-01`. -/
theorem exact_lookup_confined_witness :
    ((∃ msg, GetEpisodeVideoPath sampleWorld sampleConfig (str "Show_S01E02")
        = .error (Failure.err msg)
      ∧ ((strings.TrimPrefix (str "Show_S01E02") (str "Show_")).length < 6
        ∨ (strings.TrimPrefix (str "Show_S01E02") (str "Show_"))[0]? ≠ some 83
        ∨ (strings.TrimPrefix (str "Show_S01E02") (str "Show_"))[3]? ≠ some 69))
    ∨ ∃ s1 s2 num,
        strings.TrimPrefix (str "Show_S01E02") (str "Show_") = 83 :: s1 :: s2 :: 69 :: num
        ∧ filepath.Dir (filepath.Join sampleConfig.SeasonsDir (str "season-" ++ [s1, s2]))
            = filepath.Clean sampleConfig.SeasonsDir
        ∧ filepath.Base (filepath.Join sampleConfig.SeasonsDir (str "season-" ++ [s1, s2]))
            = str "season-" ++ [s1, s2]
        ∧ (∀ ext ∈ videoExtensions,
            filepath.Dir (filepath.Join
                (filepath.Join sampleConfig.SeasonsDir (str "season-" ++ [s1, s2]))
                (str "episode-" ++ num ++ ext))
              = filepath.Join sampleConfig.SeasonsDir (str "season-" ++ [s1, s2])
            ∧ filepath.Base (filepath.Join
                (filepath.Join sampleConfig.SeasonsDir (str "season-" ++ [s1, s2]))
                (str "episode-" ++ num ++ ext))
              = str "episode-" ++ num ++ ext)
        ∧ (∀ path, firstExisting sampleWorld
              (filepath.Join sampleConfig.SeasonsDir (str "season-" ++ [s1, s2]))
              (str "episode-" ++ num) videoExtensions = some path →
            filepath.Dir path
              = filepath.Join sampleConfig.SeasonsDir (str "season-" ++ [s1, s2])
            ∧ (utils.FileExists sampleWorld.notExist
                  (filepath.Join sampleConfig.SeasonsDir (str "season-" ++ [s1, s2])) = true →
                GetEpisodeVideoPath sampleWorld sampleConfig (str "Show_S01E02") = .ok path)))
    ∧ filepath.Dir (str "media/shows/season-01/episode-02.mkv") = str "media/shows/season-01"
    ∧ filepath.Dir (str "media/shows/season-01") = str "media/shows" :=
  ⟨exact_lookup_confined sampleWorld sampleConfig (str "Show_S01E02") (by decide),
    by decide, by decide⟩

end BingeButton
